import Mathlib

/-!
Verification development for the k8s-resource-adjustment repository.

The core under scrutiny is the manifest patcher in internal/k8s/k8s.go
(getKind, extractorMap, Patch) and the .env line rewriting in
scripts/get_gitlab_repos.go (updateEnvFile).

Embedding conventions for the patcher:

Raw input bytes are abstracted by **Option YVal**: the Go pipeline first
feeds the bytes to sigs.k8s.io/yaml, so byte sequences that are not
parseable as a structured document are collapsed into the single value
none, and parseable ones are represented by their parsed value tree
(YVal), with YAML mapping keys already converted to strings as the
library's YAML-to-JSON step does.

yaml.Unmarshal into a typed Go struct is modelled by explicit decoders
over YVal that mirror encoding/json semantics: unknown object fields are
ignored, absent fields leave the Go zero value, a null document yields
the zero struct, and a type mismatch is an error.  JSON's case-insensitive
fallback for field names is not modelled (all documents of interest use
the exactly-cased keys).  resource.Quantity values are abstracted by their
string form; quantity syntax validation and normalisation are not
modelled.  Go maps (map[ResourceName]Quantity) are unordered, so they are
represented canonically as association lists strictly sorted by key,
which is also exactly the key order yaml.Marshal emits (the JSON-to-YAML
conversion sorts mapping keys alphabetically).  yaml.Marshal is modelled
by explicit encoders that follow the json tags of the involved structs:
omitempty fields are dropped when zero, and struct-typed fields are
always emitted.

appsv1.Deployment, appsv1.DaemonSet, appsv1.StatefulSet and batchv1.Job
agree on every field the claims touch (apiVersion, kind, metadata.name,
spec.template.spec.containers), so a single structure Workload stands for
all four typed shapes; corev1.Pod gets its own structure with the
containers directly under spec.  Per k8s.io/api v0.33, a container's
ResourceRequirements has the three fields Limits, Requests and Claims;
claims are modelled by their resource-claim names.

Patch prints a warning with fmt.Printf when more than one container is
present; this effect is modelled by returning the list of warning lines
alongside the output document.  The assignment containers[0].Resources
in Go writes through the slice returned by the extractor into the backing
array of the manifest's container list, so it is modelled as a functional
update of the first container of the manifest object.
-/

namespace K8sAdjust

/-- A Kubernetes resource quantity, abstracted by its string rendering. -/
abbrev Quantity := String

/-- ResourceConfig from internal/k8s/k8s.go: the four parsed quantities. -/
structure ResourceConfig where
  cpuRequest : Quantity
  memRequest : Quantity
  cpuLimit : Quantity
  memLimit : Quantity
deriving DecidableEq, Inhabited

/-- A Go map from resource name to quantity, represented canonically as an
association list strictly sorted by key. -/
abbrev ResourceList := List (String × Quantity)

/-- corev1.ResourceRequirements (k8s.io/api v0.33): Limits, Requests, Claims.
Claims are represented by the list of claim names. -/
structure ResourceRequirements where
  limits : ResourceList
  requests : ResourceList
  claims : List String
deriving DecidableEq, Inhabited

/-- corev1.Container, restricted to the fields the claims are about. -/
structure Container where
  name : String
  image : String
  resources : ResourceRequirements
deriving DecidableEq, Inhabited

/-- corev1.PodSpec, restricted to its container list. -/
structure PodSpec where
  containers : List Container
deriving DecidableEq, Inhabited

/-- corev1.PodTemplateSpec, restricted to its pod spec. -/
structure PodTemplateSpec where
  spec : PodSpec
deriving DecidableEq, Inhabited

/-- The spec of a template-bearing workload (Deployment, DaemonSet,
StatefulSet, Job), restricted to the template. -/
structure WorkloadSpec where
  template : PodTemplateSpec
deriving DecidableEq, Inhabited

/-- metav1.ObjectMeta, restricted to the name. -/
structure ObjectMeta where
  name : String
deriving DecidableEq, Inhabited

/-- Common typed shape of appsv1.Deployment, appsv1.DaemonSet,
appsv1.StatefulSet and batchv1.Job: all four place their containers at
spec.template.spec.containers and agree on every claim-relevant field. -/
structure Workload where
  apiVersion : String
  kind : String
  metadata : ObjectMeta
  spec : WorkloadSpec
deriving DecidableEq, Inhabited

/-- corev1.Pod: containers sit directly at spec.containers. -/
structure Pod where
  apiVersion : String
  kind : String
  metadata : ObjectMeta
  spec : PodSpec
deriving DecidableEq, Inhabited

/-- The manifest value Patch holds as the Go interface value "any". -/
inductive ManifestObj where
  | workload (w : Workload)
  | pod (p : Pod)
deriving DecidableEq, Inhabited

/-- Parsed YAML document tree, after the library's YAML-to-JSON key
conversion (mapping keys are strings). -/
inductive YVal where
  | str (s : String)
  | num (n : Int)
  | bool (b : Bool)
  | null
  | arr (elems : List YVal)
  | obj (fields : List (String × YVal))

/-- Field lookup in a JSON object, with the later duplicate key winning,
as in encoding/json. -/
def lookupField (kvs : List (String × YVal)) (k : String) : Option YVal :=
  match kvs with
  | [] => none
  | (k', v) :: rest =>
    match lookupField rest k with
    | some r => some r
    | none => if k' = k then some v else none

/-- json.Unmarshal of a value into a Go string. -/
def decodeString : YVal → Except String String
  | .str s => .ok s
  | .null => .ok ""
  | _ => .error "cannot unmarshal value into string"

/-- Reading a string-typed struct field: absent fields keep the zero value. -/
def decodeStrField (kvs : List (String × YVal)) (k : String) : Except String String :=
  match lookupField kvs k with
  | none => .ok ""
  | some v => decodeString v

/-- Reading an optional struct field with a decoder and a zero value. -/
def optField (kvs : List (String × YVal)) (k : String)
    (dec : YVal → Except String α) (dflt : α) : Except String α :=
  match lookupField kvs k with
  | none => .ok dflt
  | some v => dec v

/-- json.Unmarshal of a value into a resource.Quantity, abstracted to its
string form (quantity syntax validation is not modelled). -/
def decodeQuantity : YVal → Except String Quantity
  | .str s => .ok s
  | .num n => .ok (toString n)
  | _ => .error "cannot unmarshal value into quantity"

/-- Canonicalising insert for a resource map; an already present key keeps
its existing binding (the existing one came later in the document, and the
later duplicate wins in encoding/json). -/
def insertRL (k : String) (q : Quantity) : ResourceList → ResourceList
  | [] => [(k, q)]
  | (k', q') :: rest =>
    if k.data < k'.data then (k, q) :: (k', q') :: rest
    else if k = k' then (k', q') :: rest
    else (k', q') :: insertRL k q rest

/-- Decoding the entries of a resource map object into the canonical
sorted representation. -/
def decodeRLEntries : List (String × YVal) → Except String ResourceList
  | [] => .ok []
  | (k, v) :: rest =>
    match decodeQuantity v with
    | .error e => .error e
    | .ok q =>
      match decodeRLEntries rest with
      | .error e => .error e
      | .ok m => .ok (insertRL k q m)

/-- json.Unmarshal into map[ResourceName]Quantity. -/
def decodeResourceList : YVal → Except String ResourceList
  | .null => .ok []
  | .obj kvs => decodeRLEntries kvs
  | _ => .error "cannot unmarshal value into resource map"

/-- json.Unmarshal of one corev1.ResourceClaim, abstracted to its name. -/
def decodeClaim : YVal → Except String String
  | .null => .ok ""
  | .obj kvs => decodeStrField kvs "name"
  | _ => .error "cannot unmarshal value into resource claim"

/-- json.Unmarshal of the claims slice. -/
def decodeClaimList : List YVal → Except String (List String)
  | [] => .ok []
  | v :: rest =>
    match decodeClaim v with
    | .error e => .error e
    | .ok c =>
      match decodeClaimList rest with
      | .error e => .error e
      | .ok cs => .ok (c :: cs)

/-- json.Unmarshal into []corev1.ResourceClaim. -/
def decodeClaims : YVal → Except String (List String)
  | .null => .ok []
  | .arr xs => decodeClaimList xs
  | _ => .error "cannot unmarshal value into claims"

/-- json.Unmarshal into corev1.ResourceRequirements. -/
def decodeResources : YVal → Except String ResourceRequirements
  | .null => .ok ⟨[], [], []⟩
  | .obj kvs =>
    match optField kvs "limits" decodeResourceList [] with
    | .error e => .error e
    | .ok lims =>
      match optField kvs "requests" decodeResourceList [] with
      | .error e => .error e
      | .ok reqs =>
        match optField kvs "claims" decodeClaims [] with
        | .error e => .error e
        | .ok clms => .ok ⟨lims, reqs, clms⟩
  | _ => .error "cannot unmarshal value into resource requirements"

/-- json.Unmarshal into corev1.Container (claim-relevant fields). -/
def decodeContainer : YVal → Except String Container
  | .null => .ok default
  | .obj kvs =>
    match decodeStrField kvs "name" with
    | .error e => .error e
    | .ok n =>
      match decodeStrField kvs "image" with
      | .error e => .error e
      | .ok img =>
        match optField kvs "resources" decodeResources ⟨[], [], []⟩ with
        | .error e => .error e
        | .ok res => .ok ⟨n, img, res⟩
  | _ => .error "cannot unmarshal value into container"

/-- json.Unmarshal of the elements of a container slice. -/
def decodeContainerList : List YVal → Except String (List Container)
  | [] => .ok []
  | v :: rest =>
    match decodeContainer v with
    | .error e => .error e
    | .ok c =>
      match decodeContainerList rest with
      | .error e => .error e
      | .ok cs => .ok (c :: cs)

/-- json.Unmarshal into []corev1.Container. -/
def decodeContainers : YVal → Except String (List Container)
  | .null => .ok []
  | .arr xs => decodeContainerList xs
  | _ => .error "cannot unmarshal value into containers"

/-- json.Unmarshal into corev1.PodSpec. -/
def decodePodSpec : YVal → Except String PodSpec
  | .null => .ok ⟨[]⟩
  | .obj kvs =>
    match optField kvs "containers" decodeContainers [] with
    | .error e => .error e
    | .ok cs => .ok ⟨cs⟩
  | _ => .error "cannot unmarshal value into pod spec"

/-- json.Unmarshal into corev1.PodTemplateSpec. -/
def decodeTemplate : YVal → Except String PodTemplateSpec
  | .null => .ok ⟨⟨[]⟩⟩
  | .obj kvs =>
    match optField kvs "spec" decodePodSpec ⟨[]⟩ with
    | .error e => .error e
    | .ok ps => .ok ⟨ps⟩
  | _ => .error "cannot unmarshal value into pod template spec"

/-- json.Unmarshal into the spec of a template-bearing workload. -/
def decodeWorkloadSpec : YVal → Except String WorkloadSpec
  | .null => .ok ⟨⟨⟨[]⟩⟩⟩
  | .obj kvs =>
    match optField kvs "template" decodeTemplate ⟨⟨[]⟩⟩ with
    | .error e => .error e
    | .ok t => .ok ⟨t⟩
  | _ => .error "cannot unmarshal value into workload spec"

/-- json.Unmarshal into metav1.ObjectMeta. -/
def decodeMeta : YVal → Except String ObjectMeta
  | .null => .ok ⟨""⟩
  | .obj kvs =>
    match decodeStrField kvs "name" with
    | .error e => .error e
    | .ok n => .ok ⟨n⟩
  | _ => .error "cannot unmarshal value into object meta"

/-- unmarshalK8sResource instantiated at a template-bearing workload type
(Deployment, DaemonSet, StatefulSet, Job). -/
def decodeWorkload : YVal → Except String Workload
  | .null => .ok default
  | .obj kvs =>
    match decodeStrField kvs "apiVersion" with
    | .error e => .error e
    | .ok av =>
      match decodeStrField kvs "kind" with
      | .error e => .error e
      | .ok k =>
        match optField kvs "metadata" decodeMeta ⟨""⟩ with
        | .error e => .error e
        | .ok md =>
          match optField kvs "spec" decodeWorkloadSpec ⟨⟨⟨[]⟩⟩⟩ with
          | .error e => .error e
          | .ok sp => .ok ⟨av, k, md, sp⟩
  | _ => .error "cannot unmarshal value into object"

/-- unmarshalK8sResource instantiated at corev1.Pod. -/
def decodePod : YVal → Except String Pod
  | .null => .ok default
  | .obj kvs =>
    match decodeStrField kvs "apiVersion" with
    | .error e => .error e
    | .ok av =>
      match decodeStrField kvs "kind" with
      | .error e => .error e
      | .ok k =>
        match optField kvs "metadata" decodeMeta ⟨""⟩ with
        | .error e => .error e
        | .ok md =>
          match optField kvs "spec" decodePodSpec ⟨[]⟩ with
          | .error e => .error e
          | .ok sp => .ok ⟨av, k, md, sp⟩
  | _ => .error "cannot unmarshal value into object"

/-- getKind's unmarshal into the local typeMeta struct: only the top-level
kind field is read. -/
def decodeTypeMeta : YVal → Except String String
  | .null => .ok ""
  | .obj kvs => decodeStrField kvs "kind"
  | _ => .error "cannot unmarshal value into object"

/-- getKind from internal/k8s/k8s.go: resolve the declared kind, wrapping
any unmarshal failure. -/
def getKind : Option YVal → Except String String
  | none => .error "YAML unmarshal error: input is not a structured document"
  | some v =>
    match decodeTypeMeta v with
    | .ok k => .ok k
    | .error e => .error ("YAML unmarshal error: " ++ e)

/-! Encoders, modelling yaml.Marshal of the typed objects.  The library
converts the struct to JSON (honouring json tags and omitempty) and then
to YAML with mapping keys sorted alphabetically, so each encoder lists its
fields in alphabetical order and drops omitempty fields that are zero. -/

/-- yaml.Marshal of a resource map (keys already canonically sorted). -/
def encodeResourceList (l : ResourceList) : YVal :=
  .obj (l.map (fun kv => (kv.1, .str kv.2)))

/-- yaml.Marshal of the claims slice. -/
def encodeClaims (ns : List String) : YVal :=
  .arr (ns.map (fun n => .obj [("name", .str n)]))

/-- yaml.Marshal of corev1.ResourceRequirements: claims, limits and
requests all carry omitempty. -/
def encodeResources (r : ResourceRequirements) : YVal :=
  .obj ((if r.claims = [] then [] else [("claims", encodeClaims r.claims)]) ++
        (if r.limits = [] then [] else [("limits", encodeResourceList r.limits)]) ++
        (if r.requests = [] then [] else [("requests", encodeResourceList r.requests)]))

/-- yaml.Marshal of corev1.Container: image has omitempty, name does not,
and the struct-typed resources field is always emitted. -/
def encodeContainer (c : Container) : YVal :=
  .obj ((if c.image = "" then [] else [("image", .str c.image)]) ++
        [("name", .str c.name), ("resources", encodeResources c.resources)])

/-- yaml.Marshal of corev1.PodSpec: the containers field has no omitempty. -/
def encodePodSpec (ps : PodSpec) : YVal :=
  .obj [("containers", .arr (ps.containers.map encodeContainer))]

/-- yaml.Marshal of corev1.PodTemplateSpec. -/
def encodeTemplate (t : PodTemplateSpec) : YVal :=
  .obj [("spec", encodePodSpec t.spec)]

/-- yaml.Marshal of a workload spec. -/
def encodeWorkloadSpec (s : WorkloadSpec) : YVal :=
  .obj [("template", encodeTemplate s.template)]

/-- yaml.Marshal of metav1.ObjectMeta (name has omitempty). -/
def encodeMeta (m : ObjectMeta) : YVal :=
  .obj (if m.name = "" then [] else [("name", .str m.name)])

/-- yaml.Marshal of a template-bearing workload. -/
def encodeWorkload (w : Workload) : YVal :=
  .obj ((if w.apiVersion = "" then [] else [("apiVersion", .str w.apiVersion)]) ++
        (if w.kind = "" then [] else [("kind", .str w.kind)]) ++
        [("metadata", encodeMeta w.metadata), ("spec", encodeWorkloadSpec w.spec)])

/-- yaml.Marshal of corev1.Pod. -/
def encodePod (p : Pod) : YVal :=
  .obj ((if p.apiVersion = "" then [] else [("apiVersion", .str p.apiVersion)]) ++
        (if p.kind = "" then [] else [("kind", .str p.kind)]) ++
        [("metadata", encodeMeta p.metadata), ("spec", encodePodSpec p.spec)])

/-- yaml.Marshal of the manifest interface value. -/
def marshal : ManifestObj → YVal
  | .workload w => encodeWorkload w
  | .pod p => encodePod p

/-- containerExtractor from internal/k8s/k8s.go: unmarshal the file and
return the manifest object together with its container list. -/
def ContainerExtractor := Option YVal → Except String (ManifestObj × List Container)

/-- unmarshalK8sResource: unparseable bytes fail, parsed trees are decoded. -/
def unmarshalK8sResource (dec : YVal → Except String α) : Option YVal → Except String α
  | none => .error "yaml: input is not a structured document"
  | some v => dec v

/-- newExtractor from internal/k8s/k8s.go. -/
def newExtractor (dec : YVal → Except String α) (inj : α → ManifestObj)
    (getContainers : α → List Container) : ContainerExtractor :=
  fun file =>
    match unmarshalK8sResource dec file with
    | .error e => .error e
    | .ok obj => .ok (inj obj, getContainers obj)

/-- The extractor shared by the Deployment, DaemonSet, StatefulSet and Job
entries of extractorMap: the Go table instantiates the same generic
newExtractor at four types whose claim-relevant shape coincides, reading
spec.template.spec.containers. -/
def workloadExtractor : ContainerExtractor :=
  newExtractor decodeWorkload ManifestObj.workload
    (fun o => o.spec.template.spec.containers)

/-- The Pod entry of extractorMap, reading spec.containers. -/
def podExtractor : ContainerExtractor :=
  newExtractor decodePod ManifestObj.pod (fun o => o.spec.containers)

/-- extractorMap from internal/k8s/k8s.go: the closed five-kind table. -/
def extractorMap : List (String × ContainerExtractor) :=
  [("Deployment", workloadExtractor),
   ("DaemonSet", workloadExtractor),
   ("StatefulSet", workloadExtractor),
   ("Pod", podExtractor),
   ("Job", workloadExtractor)]

/-- The ResourceRequirements literal Patch assigns to containers[0]:
requests and limits hold exactly cpu and memory, and the claims field is
the zero value of the fresh struct.  The cpu key sorts before memory, so
the association lists are canonical. -/
def newRequirements (cfg : ResourceConfig) : ResourceRequirements :=
  { limits := [("cpu", cfg.cpuLimit), ("memory", cfg.memLimit)],
    requests := [("cpu", cfg.cpuRequest), ("memory", cfg.memRequest)],
    claims := [] }

/-- The in-place update of containers[0].Resources through the extracted
slice, which aliases the manifest's backing array. -/
def setFirstResources (cs : List Container) (r : ResourceRequirements) : List Container :=
  match cs with
  | [] => []
  | c :: rest => { c with resources := r } :: rest

/-- The effect of the containers[0].Resources assignment on the manifest
object held by Patch. -/
def updateFirstContainerResources (m : ManifestObj) (r : ResourceRequirements) : ManifestObj :=
  match m with
  | .workload w =>
    .workload { w with spec.template.spec.containers :=
                  setFirstResources w.spec.template.spec.containers r }
  | .pod p => .pod { p with spec.containers := setFirstResources p.spec.containers r }

/-- The warning line fmt.Printf emits when several containers are present. -/
def multiContainerWarning (kind : String) : String :=
  "Warning: Multiple containers found in " ++ kind ++ ", updating only the first one"

/-- Patch from internal/k8s/k8s.go.  The second component of a successful
result is the list of warning lines printed to stdout. -/
def Patch (file : Option YVal) (cfg : ResourceConfig) :
    Except String (YVal × List String) :=
  match getKind file with
  | .error e => .error e
  | .ok kind =>
    match extractorMap.lookup kind with
    | none => .error ("unsupported kind: " ++ kind)
    | some extractor =>
      match extractor file with
      | .error e =>
        .error ("failed to extract containers for kind " ++ kind ++ ": " ++ e)
      | .ok (manifest, containers) =>
        if containers.length = 0 then
          .error ("no containers found in " ++ kind)
        else
          .ok (marshal (updateFirstContainerResources manifest (newRequirements cfg)),
               if containers.length > 1 then [multiContainerWarning kind] else [])

/-! Observation helpers on document trees, used to state the claims. -/

/-- Field access on a document tree (none off objects). -/
def yGet (v : YVal) (k : String) : Option YVal :=
  match v with
  | .obj kvs => lookupField kvs k
  | _ => none

/-- Path access on a document tree. -/
def yPath (v : YVal) : List String → Option YVal
  | [] => some v
  | k :: ks =>
    match yGet v k with
    | some v' => yPath v' ks
    | none => none

/-- Index access on a document tree (none off arrays). -/
def yIdx (v : YVal) (i : Nat) : Option YVal :=
  match v with
  | .arr xs => xs[i]?
  | _ => none

/-- Where each supported kind keeps its container list. -/
def containersPath (kind : String) : List String :=
  if kind = "Pod" then ["spec", "containers"] else ["spec", "template", "spec", "containers"]

/-- The first container of a document of the given kind, as a subtree. -/
def container0 (kind : String) (v : YVal) : Option YVal :=
  (yPath v (containersPath kind)).bind (fun l => yIdx l 0)

/-- The document of a successful patch, for stating counterexamples. -/
def patchOut (file : Option YVal) (cfg : ResourceConfig) : YVal :=
  match Patch file cfg with
  | .ok (o, _) => o
  | .error _ => .null

/-- The projections of a manifest object that Patch must not touch. -/
def apiVersionOf : ManifestObj → String
  | .workload w => w.apiVersion
  | .pod p => p.apiVersion

/-- The kind recorded in the typed manifest object. -/
def kindOf : ManifestObj → String
  | .workload w => w.kind
  | .pod p => p.kind

/-- The metadata name recorded in the typed manifest object. -/
def metaNameOf : ManifestObj → String
  | .workload w => w.metadata.name
  | .pod p => p.metadata.name

/-- The container list of the typed manifest object (what the Go
extractors return, aliasing the manifest). -/
def containersOf : ManifestObj → List Container
  | .workload w => w.spec.template.spec.containers
  | .pod p => p.spec.containers

/-! Canonical-representation invariant: every resource map inside a value
decoded from a document is strictly sorted by key, and encoding such a
value decodes back to it. -/

/-- A resource map representation is canonical when strictly sorted. -/
def canonRL (l : ResourceList) : Prop :=
  l.Chain' (fun a b => a.1 < b.1)

/-- Canonical resource requirements. -/
def canonRR (r : ResourceRequirements) : Prop :=
  canonRL r.limits ∧ canonRL r.requests

/-- Canonical container. -/
def canonC (c : Container) : Prop :=
  canonRR c.resources

/-- Canonical manifest object. -/
def canonM (m : ManifestObj) : Prop :=
  ∀ c ∈ containersOf m, canonC c

instance : DecidablePred canonRL := fun l =>
  inferInstanceAs (Decidable (l.Chain' _))

instance (r : ResourceRequirements) : Decidable (canonRR r) :=
  inferInstanceAs (Decidable (_ ∧ _))

instance (c : Container) : Decidable (canonC c) :=
  inferInstanceAs (Decidable (canonRR _))

instance (m : ManifestObj) : Decidable (canonM m) :=
  inferInstanceAs (Decidable (∀ c ∈ containersOf m, canonC c))

/-- The minimal valid manifest of the given kind used by the spec's
testable properties: one container with a name and an image, metadata
name, and apiVersion. -/
def minimalManifest (kind apiV mName cName img : String) : YVal :=
  if kind = "Pod" then
    .obj [("apiVersion", .str apiV), ("kind", .str kind),
          ("metadata", .obj [("name", .str mName)]),
          ("spec", .obj [("containers",
            .arr [.obj [("name", .str cName), ("image", .str img)]])])]
  else
    .obj [("apiVersion", .str apiV), ("kind", .str kind),
          ("metadata", .obj [("name", .str mName)]),
          ("spec", .obj [("template", .obj [("spec", .obj [("containers",
            .arr [.obj [("name", .str cName), ("image", .str img)]])])])])]

/-! Concrete documents and configurations used to evaluate the theorems. -/

/-- The resource configuration of the repository's unit tests. -/
def cfgEx : ResourceConfig :=
  { cpuRequest := "100m", memRequest := "128Mi", cpuLimit := "200m", memLimit := "256Mi" }

/-- The default resource configuration of getConfigFromEnv. -/
def cfgEx2 : ResourceConfig :=
  { cpuRequest := "10m", memRequest := "16Mi", cpuLimit := "20m", memLimit := "32Mi" }

/-- First container of the two-container example. -/
def twoC0 : Container := { name := "main", image := "nginx", resources := ⟨[], [], []⟩ }

/-- Second container of the two-container example, carrying resources of
its own. -/
def twoC1 : Container :=
  { name := "sidecar", image := "envoy",
    resources := ⟨[("cpu", "50m")], [("memory", "64Mi")], []⟩ }

/-- Typed two-container Deployment. -/
def twoW : Workload :=
  { apiVersion := "apps/v1", kind := "Deployment", metadata := ⟨"two"⟩,
    spec := ⟨⟨⟨[twoC0, twoC1]⟩⟩⟩ }

/-- The two-container Deployment document. -/
def twoDoc : YVal := encodeWorkload twoW

/-- A container that already carries requests (with an extra
ephemeral-storage key), limits, and a resource claim. -/
def c4Container : YVal :=
  .obj [("name", .str "app"), ("image", .str "nginx"),
        ("resources", .obj
          [("claims", .arr [.obj [("name", .str "gpu")]]),
           ("requests", .obj [("cpu", .str "1"), ("ephemeral-storage", .str "1Gi")]),
           ("limits", .obj [("memory", .str "2Gi")])])]

/-- Deployment document whose container 0 is c4Container. -/
def c4Doc : YVal :=
  .obj [("apiVersion", .str "apps/v1"), ("kind", .str "Deployment"),
        ("metadata", .obj [("name", .str "c4")]),
        ("spec", .obj [("template", .obj [("spec", .obj
          [("containers", .arr [c4Container])])])])]

/-- The typed decoding of c4Container (requests canonically sorted). -/
def c4C0 : Container :=
  { name := "app", image := "nginx",
    resources := ⟨[("memory", "2Gi")], [("cpu", "1"), ("ephemeral-storage", "1Gi")], ["gpu"]⟩ }

/-- The typed decoding of c4Doc. -/
def c4W : Workload :=
  { apiVersion := "apps/v1", kind := "Deployment", metadata := ⟨"c4"⟩,
    spec := ⟨⟨⟨[c4C0]⟩⟩⟩ }

/-- A Deployment document with an empty container list. -/
def noContainersDoc : YVal :=
  .obj [("apiVersion", .str "apps/v1"), ("kind", .str "Deployment"),
        ("metadata", .obj [("name", .str "empty")]),
        ("spec", .obj [("template", .obj [("spec", .obj
          [("containers", .arr [])])])])]

/-- A Service document (unsupported kind). -/
def svcDoc : YVal :=
  .obj [("apiVersion", .str "v1"), ("kind", .str "Service"),
        ("metadata", .obj [("name", .str "test-service")])]

end K8sAdjust

namespace EnvScript

/-!
Model of the line-rewriting step of updateEnvFile in
scripts/get_gitlab_repos.go.  Go strings are byte sequences; they are
modelled as lists of characters.  strings.Split(s, newline) and
strings.Join(lines, newline) become splitLines and joinLines; the rest of
the function is translated statement by statement.  Reading and writing
the .env file itself is process I/O outside the model.
-/

/-- strings.Split(s, newline). -/
def splitLines : List Char → List (List Char)
  | [] => [[]]
  | c :: rest =>
    if c = '\n' then [] :: splitLines rest
    else
      match splitLines rest with
      | l :: ls => (c :: l) :: ls
      | [] => [[c]]

/-- strings.Join(lines, newline). -/
def joinLines : List (List Char) → List Char
  | [] => []
  | [l] => l
  | l :: ls => l ++ '\n' :: joinLines ls

/-- The scan-and-replace loop: replace the first line carrying the prefix
with the new line, reporting whether one was found. -/
def replaceFirst (pre newLine : List Char) :
    List (List Char) → List (List Char) × Bool
  | [] => ([], false)
  | l :: ls =>
    if pre.isPrefixOf l then (newLine :: ls, true)
    else
      let r := replaceFirst pre newLine ls
      (l :: r.1, r.2)

/-- The pure content transformation of updateEnvFile: split into lines,
drop empty lines, replace the first key-prefixed line or append the new
one, join with newlines and add a trailing newline. -/
def updateEnvFileContent (content : List Char) (key value : List Char) : List Char :=
  let lines := splitLines content
  let newLine := key ++ '=' :: value
  let kept := lines.filter (fun l => l ≠ [])
  let scanned := replaceFirst (key ++ ['=']) newLine kept
  let final := if scanned.2 then scanned.1 else kept ++ [newLine]
  joinLines final ++ ['\n']

end EnvScript

namespace K8sAdjust

/-! Canonicity and round-trip lemmas for the resource-map representation. -/

theorem canonRL_iff_pairwise {l : ResourceList} :
    canonRL l ↔ l.Pairwise (fun a b => a.1 < b.1) := by
  have : IsTrans (String × Quantity) (fun a b => a.1 < b.1) :=
    ⟨fun _ _ _ h1 h2 => lt_trans h1 h2⟩
  unfold canonRL
  exact List.chain'_iff_pairwise

theorem mem_insertRL {k : String} {q : Quantity} {l : ResourceList} {x : String × Quantity}
    (h : x ∈ insertRL k q l) : x = (k, q) ∨ x ∈ l := by
  induction l with
  | nil => simp [insertRL] at h; simp [h]
  | cons hd tl ih =>
    simp only [insertRL] at h
    split at h
    · rcases List.mem_cons.mp h with h | h
      · exact Or.inl h
      · exact Or.inr h
    · split at h
      · exact Or.inr h
      · rcases List.mem_cons.mp h with h | h
        · exact Or.inr (by simp [h])
        · rcases ih h with h' | h'
          · exact Or.inl h'
          · exact Or.inr (by simp [h'])

theorem insertRL_pairwise {k : String} {q : Quantity} {l : ResourceList}
    (h : l.Pairwise (fun a b => a.1 < b.1)) :
    (insertRL k q l).Pairwise (fun a b => a.1 < b.1) := by
  induction l with
  | nil => simp [insertRL]
  | cons hd tl ih =>
    rcases List.pairwise_cons.mp h with ⟨h1, h2⟩
    simp only [insertRL]
    split
    next hlt =>
      refine List.pairwise_cons.mpr ⟨?_, h⟩
      intro x hx
      rcases List.mem_cons.mp hx with rfl | hx
      · exact String.lt_iff_toList_lt.mpr hlt
      · exact lt_trans (String.lt_iff_toList_lt.mpr hlt) (h1 x hx)
    next hnlt =>
      split
      · exact h
      next hne =>
        refine List.pairwise_cons.mpr ⟨?_, ih h2⟩
        intro x hx
        rcases mem_insertRL hx with rfl | hx
        · rcases lt_trichotomy k hd.1 with hlt | heq | hgt
          · exact absurd (String.lt_iff_toList_lt.mp hlt) hnlt
          · exact absurd heq hne
          · exact hgt
        · exact h1 x hx

theorem insertRL_of_lt_head {k : String} {q : Quantity} {l : ResourceList}
    (h : ∀ x ∈ l, k < x.1) : insertRL k q l = (k, q) :: l := by
  cases l with
  | nil => rfl
  | cons hd tl =>
    have hlt : k.data < hd.1.data := String.lt_iff_toList_lt.mp (h hd (by simp))
    simp [insertRL, hlt]

theorem decodeRLEntries_canon {kvs : List (String × YVal)} {l : ResourceList}
    (h : decodeRLEntries kvs = .ok l) : canonRL l := by
  induction kvs generalizing l with
  | nil =>
    simp [decodeRLEntries] at h
    simp [h, canonRL]
  | cons hd tl ih =>
    obtain ⟨k, v⟩ := hd
    rw [decodeRLEntries] at h
    cases hq : decodeQuantity v <;> rw [hq] at h
    · exact absurd h (by simp)
    · cases hm : decodeRLEntries tl <;> rw [hm] at h
      · exact absurd h (by simp)
      · simp only [Except.ok.injEq] at h
        subst h
        exact canonRL_iff_pairwise.mpr
          (insertRL_pairwise (canonRL_iff_pairwise.mp (ih hm)))

theorem decodeResourceList_canon {v : YVal} {l : ResourceList}
    (h : decodeResourceList v = .ok l) : canonRL l := by
  cases v <;> simp [decodeResourceList] at h
  · simp [h, canonRL]
  · exact decodeRLEntries_canon h

theorem decodeRLEntries_encode {l : ResourceList} (h : canonRL l) :
    decodeRLEntries (l.map (fun kv => (kv.1, YVal.str kv.2))) = .ok l := by
  induction l with
  | nil => rfl
  | cons hd tl ih =>
    have hp := canonRL_iff_pairwise.mp h
    rcases List.pairwise_cons.mp hp with ⟨h1, h2⟩
    have htl : decodeRLEntries (tl.map (fun kv => (kv.1, YVal.str kv.2))) = .ok tl :=
      ih (canonRL_iff_pairwise.mpr h2)
    obtain ⟨k, q⟩ := hd
    rw [List.map_cons, decodeRLEntries]
    simp only [decodeQuantity, htl]
    rw [insertRL_of_lt_head (by simpa using h1)]

theorem decodeResourceList_encode {l : ResourceList} (h : canonRL l) :
    decodeResourceList (encodeResourceList l) = .ok l := by
  simp [encodeResourceList, decodeResourceList, decodeRLEntries_encode h]

theorem decodeClaimList_encode (ns : List String) :
    decodeClaimList (ns.map (fun n => YVal.obj [("name", YVal.str n)])) = .ok ns := by
  induction ns with
  | nil => rfl
  | cons hd tl ih =>
    rw [List.map_cons, decodeClaimList]
    simp [decodeClaim, decodeStrField, lookupField, decodeString, ih]

theorem decodeClaims_encode (ns : List String) :
    decodeClaims (encodeClaims ns) = .ok ns := by
  simp [encodeClaims, decodeClaims, decodeClaimList_encode]

theorem decodeResources_encode {r : ResourceRequirements} (h : canonRR r) :
    decodeResources (encodeResources r) = .ok r := by
  obtain ⟨lims, reqs, clms⟩ := r
  obtain ⟨hl, hr⟩ := h
  by_cases hc : clms = [] <;> by_cases hli : lims = [] <;> by_cases hre : reqs = [] <;>
    simp only [encodeResources, hc, hli, hre, if_true, if_false, ite_true, ite_false,
      List.nil_append, List.append_nil] <;>
    subst_eqs <;>
    simp [decodeResources, optField, lookupField, decodeResourceList_encode hl,
      decodeResourceList_encode hr, decodeClaims_encode]

theorem decodeContainer_encode {c : Container} (h : canonC c) :
    decodeContainer (encodeContainer c) = .ok c := by
  obtain ⟨n, img, res⟩ := c
  have hres : decodeResources (encodeResources res) = .ok res := decodeResources_encode h
  by_cases hi : img = "" <;>
    simp [encodeContainer, hi, decodeContainer, decodeStrField, lookupField,
      decodeString, optField, hres]

theorem decodeContainerList_encode {cs : List Container} (h : ∀ c ∈ cs, canonC c) :
    decodeContainerList (cs.map encodeContainer) = .ok cs := by
  induction cs with
  | nil => rfl
  | cons hd tl ih =>
    rw [List.map_cons, decodeContainerList]
    rw [decodeContainer_encode (h hd (by simp)), ih (fun c hc => h c (by simp [hc]))]

theorem decodeContainers_encode {cs : List Container} (h : ∀ c ∈ cs, canonC c) :
    decodeContainers (.arr (cs.map encodeContainer)) = .ok cs := by
  simp [decodeContainers, decodeContainerList_encode h]

theorem decodePodSpec_encode {ps : PodSpec} (h : ∀ c ∈ ps.containers, canonC c) :
    decodePodSpec (encodePodSpec ps) = .ok ps := by
  obtain ⟨cs⟩ := ps
  simp [encodePodSpec, decodePodSpec, optField, lookupField, decodeContainers_encode h]

theorem decodeTemplate_encode {t : PodTemplateSpec} (h : ∀ c ∈ t.spec.containers, canonC c) :
    decodeTemplate (encodeTemplate t) = .ok t := by
  obtain ⟨ps⟩ := t
  simp [encodeTemplate, decodeTemplate, optField, lookupField, decodePodSpec_encode h]

theorem decodeWorkloadSpec_encode {s : WorkloadSpec}
    (h : ∀ c ∈ s.template.spec.containers, canonC c) :
    decodeWorkloadSpec (encodeWorkloadSpec s) = .ok s := by
  obtain ⟨t⟩ := s
  simp [encodeWorkloadSpec, decodeWorkloadSpec, optField, lookupField,
    decodeTemplate_encode h]

theorem decodeMeta_encode (m : ObjectMeta) : decodeMeta (encodeMeta m) = .ok m := by
  obtain ⟨n⟩ := m
  by_cases hn : n = "" <;>
    simp [encodeMeta, hn, decodeMeta, decodeStrField, lookupField, decodeString]

theorem decodeWorkload_encode {w : Workload}
    (h : ∀ c ∈ w.spec.template.spec.containers, canonC c) :
    decodeWorkload (encodeWorkload w) = .ok w := by
  obtain ⟨av, k, md, sp⟩ := w
  by_cases ha : av = "" <;> by_cases hk : k = "" <;>
    simp [encodeWorkload, ha, hk, decodeWorkload, decodeStrField, lookupField,
      decodeString, optField, decodeMeta_encode, decodeWorkloadSpec_encode h]

theorem decodePod_encode {p : Pod} (h : ∀ c ∈ p.spec.containers, canonC c) :
    decodePod (encodePod p) = .ok p := by
  obtain ⟨av, k, md, sp⟩ := p
  by_cases ha : av = "" <;> by_cases hk : k = "" <;>
    simp [encodePod, ha, hk, decodePod, decodeStrField, lookupField,
      decodeString, optField, decodeMeta_encode, decodePodSpec_encode h]

/-- yaml.Marshal keeps the document's kind field readable by getKind. -/
theorem decodeTypeMeta_encodeWorkload (w : Workload) :
    decodeTypeMeta (encodeWorkload w) = .ok w.kind := by
  obtain ⟨av, k, md, sp⟩ := w
  by_cases ha : av = "" <;> by_cases hk : k = "" <;>
    simp [encodeWorkload, ha, hk, decodeTypeMeta, decodeStrField, lookupField,
      decodeString]

theorem decodeTypeMeta_encodePod (p : Pod) :
    decodeTypeMeta (encodePod p) = .ok p.kind := by
  obtain ⟨av, k, md, sp⟩ := p
  by_cases ha : av = "" <;> by_cases hk : k = "" <;>
    simp [encodePod, ha, hk, decodeTypeMeta, decodeStrField, lookupField,
      decodeString]

/-! Every successfully decoded value has canonical resource maps. -/

theorem decodeResources_canon {v : YVal} {r : ResourceRequirements}
    (h : decodeResources v = .ok r) : canonRR r := by
  cases v
  case str => simp [decodeResources] at h
  case num => simp [decodeResources] at h
  case bool => simp [decodeResources] at h
  case arr => simp [decodeResources] at h
  case null =>
    simp only [decodeResources, Except.ok.injEq] at h
    subst h
    simp [canonRR, canonRL]
  case obj kvs =>
    simp only [decodeResources] at h
    cases hl : optField kvs "limits" decodeResourceList [] <;> rw [hl] at h
    · simp at h
    · cases hr : optField kvs "requests" decodeResourceList [] <;> rw [hr] at h
      · simp at h
      · cases hc : optField kvs "claims" decodeClaims [] <;> rw [hc] at h
        · simp at h
        · simp only [Except.ok.injEq] at h
          subst h
          refine ⟨?_, ?_⟩
          · rw [optField] at hl
            cases hv : lookupField kvs "limits" <;> rw [hv] at hl
            · simp only [Except.ok.injEq] at hl
              subst hl
              simp [canonRL]
            · exact decodeResourceList_canon hl
          · rw [optField] at hr
            cases hv : lookupField kvs "requests" <;> rw [hv] at hr
            · simp only [Except.ok.injEq] at hr
              subst hr
              simp [canonRL]
            · exact decodeResourceList_canon hr

theorem decodeContainer_canon {v : YVal} {c : Container}
    (h : decodeContainer v = .ok c) : canonC c := by
  cases v
  case str => simp [decodeContainer] at h
  case num => simp [decodeContainer] at h
  case bool => simp [decodeContainer] at h
  case arr => simp [decodeContainer] at h
  case null =>
    simp only [decodeContainer, Except.ok.injEq] at h
    subst h
    simp [canonC, canonRR, canonRL, default, Container, ResourceRequirements]
  case obj kvs =>
    simp only [decodeContainer] at h
    cases h1 : decodeStrField kvs "name" <;> rw [h1] at h
    · simp at h
    · cases h2 : decodeStrField kvs "image" <;> rw [h2] at h
      · simp at h
      · cases h3 : optField kvs "resources" decodeResources ⟨[], [], []⟩ <;> rw [h3] at h
        · simp at h
        · simp only [Except.ok.injEq] at h
          subst h
          rw [optField] at h3
          cases hv : lookupField kvs "resources" <;> rw [hv] at h3
          · simp only [Except.ok.injEq] at h3
            subst h3
            simp [canonC, canonRR, canonRL]
          · exact decodeResources_canon h3

theorem decodeContainerList_canon {vs : List YVal} {cs : List Container}
    (h : decodeContainerList vs = .ok cs) : ∀ c ∈ cs, canonC c := by
  induction vs generalizing cs with
  | nil =>
    simp only [decodeContainerList, Except.ok.injEq] at h
    subst h
    simp
  | cons hd tl ih =>
    simp only [decodeContainerList] at h
    cases h1 : decodeContainer hd <;> rw [h1] at h
    · simp at h
    · cases h2 : decodeContainerList tl <;> rw [h2] at h
      · simp at h
      · simp only [Except.ok.injEq] at h
        subst h
        intro c hc
        rcases List.mem_cons.mp hc with rfl | hc
        · exact decodeContainer_canon h1
        · exact ih h2 c hc

theorem decodeContainers_canon {v : YVal} {cs : List Container}
    (h : decodeContainers v = .ok cs) : ∀ c ∈ cs, canonC c := by
  cases v
  case str => simp [decodeContainers] at h
  case num => simp [decodeContainers] at h
  case bool => simp [decodeContainers] at h
  case obj => simp [decodeContainers] at h
  case null =>
    simp only [decodeContainers, Except.ok.injEq] at h
    subst h
    simp
  case arr xs =>
    simp only [decodeContainers] at h
    exact decodeContainerList_canon h

theorem decodePodSpec_canon {v : YVal} {ps : PodSpec}
    (h : decodePodSpec v = .ok ps) : ∀ c ∈ ps.containers, canonC c := by
  cases v
  case str => simp [decodePodSpec] at h
  case num => simp [decodePodSpec] at h
  case bool => simp [decodePodSpec] at h
  case arr => simp [decodePodSpec] at h
  case null =>
    simp only [decodePodSpec, Except.ok.injEq] at h
    subst h
    simp
  case obj kvs =>
    simp only [decodePodSpec] at h
    cases h1 : optField kvs "containers" decodeContainers [] <;> rw [h1] at h
    · simp at h
    · simp only [Except.ok.injEq] at h
      subst h
      rw [optField] at h1
      cases hv : lookupField kvs "containers" <;> rw [hv] at h1
      · simp only [Except.ok.injEq] at h1
        subst h1
        simp
      · exact decodeContainers_canon h1

theorem decodeTemplate_canon {v : YVal} {t : PodTemplateSpec}
    (h : decodeTemplate v = .ok t) : ∀ c ∈ t.spec.containers, canonC c := by
  cases v
  case str => simp [decodeTemplate] at h
  case num => simp [decodeTemplate] at h
  case bool => simp [decodeTemplate] at h
  case arr => simp [decodeTemplate] at h
  case null =>
    simp only [decodeTemplate, Except.ok.injEq] at h
    subst h
    simp
  case obj kvs =>
    simp only [decodeTemplate] at h
    cases h1 : optField kvs "spec" decodePodSpec ⟨[]⟩ <;> rw [h1] at h
    · simp at h
    · simp only [Except.ok.injEq] at h
      subst h
      rw [optField] at h1
      cases hv : lookupField kvs "spec" <;> rw [hv] at h1
      · simp only [Except.ok.injEq] at h1
        subst h1
        simp
      · exact decodePodSpec_canon h1

theorem decodeWorkloadSpec_canon {v : YVal} {s : WorkloadSpec}
    (h : decodeWorkloadSpec v = .ok s) : ∀ c ∈ s.template.spec.containers, canonC c := by
  cases v
  case str => simp [decodeWorkloadSpec] at h
  case num => simp [decodeWorkloadSpec] at h
  case bool => simp [decodeWorkloadSpec] at h
  case arr => simp [decodeWorkloadSpec] at h
  case null =>
    simp only [decodeWorkloadSpec, Except.ok.injEq] at h
    subst h
    simp
  case obj kvs =>
    simp only [decodeWorkloadSpec] at h
    cases h1 : optField kvs "template" decodeTemplate ⟨⟨[]⟩⟩ <;> rw [h1] at h
    · simp at h
    · simp only [Except.ok.injEq] at h
      subst h
      rw [optField] at h1
      cases hv : lookupField kvs "template" <;> rw [hv] at h1
      · simp only [Except.ok.injEq] at h1
        subst h1
        simp
      · exact decodeTemplate_canon h1

theorem decodeWorkload_canon {v : YVal} {w : Workload}
    (h : decodeWorkload v = .ok w) : ∀ c ∈ w.spec.template.spec.containers, canonC c := by
  cases v
  case str => simp [decodeWorkload] at h
  case num => simp [decodeWorkload] at h
  case bool => simp [decodeWorkload] at h
  case arr => simp [decodeWorkload] at h
  case null =>
    simp only [decodeWorkload, Except.ok.injEq] at h
    subst h
    simp [default, Workload, WorkloadSpec, PodTemplateSpec, PodSpec]
  case obj kvs =>
    simp only [decodeWorkload] at h
    cases h1 : decodeStrField kvs "apiVersion" <;> rw [h1] at h
    · simp at h
    · cases h2 : decodeStrField kvs "kind" <;> rw [h2] at h
      · simp at h
      · cases h3 : optField kvs "metadata" decodeMeta ⟨""⟩ <;> rw [h3] at h
        · simp at h
        · cases h4 : optField kvs "spec" decodeWorkloadSpec ⟨⟨⟨[]⟩⟩⟩ <;> rw [h4] at h
          · simp at h
          · simp only [Except.ok.injEq] at h
            subst h
            rw [optField] at h4
            cases hv : lookupField kvs "spec" <;> rw [hv] at h4
            · simp only [Except.ok.injEq] at h4
              subst h4
              simp
            · exact decodeWorkloadSpec_canon h4

theorem decodePod_canon {v : YVal} {p : Pod}
    (h : decodePod v = .ok p) : ∀ c ∈ p.spec.containers, canonC c := by
  cases v
  case str => simp [decodePod] at h
  case num => simp [decodePod] at h
  case bool => simp [decodePod] at h
  case arr => simp [decodePod] at h
  case null =>
    simp only [decodePod, Except.ok.injEq] at h
    subst h
    simp [default, Pod, PodSpec]
  case obj kvs =>
    simp only [decodePod] at h
    cases h1 : decodeStrField kvs "apiVersion" <;> rw [h1] at h
    · simp at h
    · cases h2 : decodeStrField kvs "kind" <;> rw [h2] at h
      · simp at h
      · cases h3 : optField kvs "metadata" decodeMeta ⟨""⟩ <;> rw [h3] at h
        · simp at h
        · cases h4 : optField kvs "spec" decodePodSpec ⟨[]⟩ <;> rw [h4] at h
          · simp at h
          · simp only [Except.ok.injEq] at h
            subst h
            rw [optField] at h4
            cases hv : lookupField kvs "spec" <;> rw [hv] at h4
            · simp only [Except.ok.injEq] at h4
              subst h4
              simp
            · exact decodePodSpec_canon h4

/-! The typed object records the same kind string the resolver read. -/

theorem decodeWorkload_kind {v : YVal} {w : Workload}
    (h : decodeWorkload v = .ok w) : decodeTypeMeta v = .ok w.kind := by
  cases v
  case str => simp [decodeWorkload] at h
  case num => simp [decodeWorkload] at h
  case bool => simp [decodeWorkload] at h
  case arr => simp [decodeWorkload] at h
  case null =>
    simp only [decodeWorkload, Except.ok.injEq] at h
    subst h
    simp [decodeTypeMeta, default, Workload]
  case obj kvs =>
    simp only [decodeWorkload] at h
    cases h1 : decodeStrField kvs "apiVersion" <;> rw [h1] at h
    · simp at h
    · cases h2 : decodeStrField kvs "kind" <;> rw [h2] at h
      · simp at h
      · cases h3 : optField kvs "metadata" decodeMeta ⟨""⟩ <;> rw [h3] at h
        · simp at h
        · cases h4 : optField kvs "spec" decodeWorkloadSpec ⟨⟨⟨[]⟩⟩⟩ <;> rw [h4] at h
          · simp at h
          · simp only [Except.ok.injEq] at h
            subst h
            simpa [decodeTypeMeta] using h2

theorem decodePod_kind {v : YVal} {p : Pod}
    (h : decodePod v = .ok p) : decodeTypeMeta v = .ok p.kind := by
  cases v
  case str => simp [decodePod] at h
  case num => simp [decodePod] at h
  case bool => simp [decodePod] at h
  case arr => simp [decodePod] at h
  case null =>
    simp only [decodePod, Except.ok.injEq] at h
    subst h
    simp [decodeTypeMeta, default, Pod]
  case obj kvs =>
    simp only [decodePod] at h
    cases h1 : decodeStrField kvs "apiVersion" <;> rw [h1] at h
    · simp at h
    · cases h2 : decodeStrField kvs "kind" <;> rw [h2] at h
      · simp at h
      · cases h3 : optField kvs "metadata" decodeMeta ⟨""⟩ <;> rw [h3] at h
        · simp at h
        · cases h4 : optField kvs "spec" decodePodSpec ⟨[]⟩ <;> rw [h4] at h
          · simp at h
          · simp only [Except.ok.injEq] at h
            subst h
            simpa [decodeTypeMeta] using h2

/-! Properties of the extractor table and of the container-0 update. -/

theorem lookup_extractorMap {k : String} {e : ContainerExtractor}
    (h : extractorMap.lookup k = some e) :
    (k ∈ ["Deployment", "DaemonSet", "StatefulSet", "Job"] ∧ e = workloadExtractor) ∨
    (k = "Pod" ∧ e = podExtractor) := by
  by_cases h1 : k = "Deployment"
  · subst h1
    rw [show extractorMap.lookup "Deployment" = some workloadExtractor from rfl] at h
    injection h with h
    simp [← h]
  · by_cases h2 : k = "DaemonSet"
    · subst h2
      rw [show extractorMap.lookup "DaemonSet" = some workloadExtractor from rfl] at h
      injection h with h
      simp [← h]
    · by_cases h3 : k = "StatefulSet"
      · subst h3
        rw [show extractorMap.lookup "StatefulSet" = some workloadExtractor from rfl] at h
        injection h with h
        simp [← h]
      · by_cases h4 : k = "Pod"
        · subst h4
          rw [show extractorMap.lookup "Pod" = some podExtractor from rfl] at h
          injection h with h
          simp [← h]
        · by_cases h5 : k = "Job"
          · subst h5
            rw [show extractorMap.lookup "Job" = some workloadExtractor from rfl] at h
            injection h with h
            simp [← h]
          · exfalso
            have e1 : (k == "Deployment") = false := beq_eq_false_iff_ne.mpr h1
            have e2 : (k == "DaemonSet") = false := beq_eq_false_iff_ne.mpr h2
            have e3 : (k == "StatefulSet") = false := beq_eq_false_iff_ne.mpr h3
            have e4 : (k == "Pod") = false := beq_eq_false_iff_ne.mpr h4
            have e5 : (k == "Job") = false := beq_eq_false_iff_ne.mpr h5
            simp [extractorMap, List.lookup, e1, e2, e3, e4, e5] at h

theorem lookup_extractorMap_none {k : String}
    (h : k ∉ ["Deployment", "DaemonSet", "StatefulSet", "Pod", "Job"]) :
    extractorMap.lookup k = none := by
  simp only [List.mem_cons, not_or, List.not_mem_nil] at h
  obtain ⟨h1, h2, h3, h4, h5, -⟩ := h
  have e1 : (k == "Deployment") = false := beq_eq_false_iff_ne.mpr h1
  have e2 : (k == "DaemonSet") = false := beq_eq_false_iff_ne.mpr h2
  have e3 : (k == "StatefulSet") = false := beq_eq_false_iff_ne.mpr h3
  have e4 : (k == "Pod") = false := beq_eq_false_iff_ne.mpr h4
  have e5 : (k == "Job") = false := beq_eq_false_iff_ne.mpr h5
  simp [extractorMap, List.lookup, e1, e2, e3, e4, e5]

theorem workloadExtractor_ok {file : Option YVal} {m : ManifestObj} {cs : List Container}
    (h : workloadExtractor file = .ok (m, cs)) :
    ∃ v w, file = some v ∧ decodeWorkload v = .ok w ∧ m = .workload w ∧
      cs = w.spec.template.spec.containers := by
  cases file with
  | none => simp [workloadExtractor, newExtractor, unmarshalK8sResource] at h
  | some v =>
    simp only [workloadExtractor, newExtractor, unmarshalK8sResource] at h
    cases hw : decodeWorkload v <;> rw [hw] at h
    · simp at h
    case ok w =>
      simp only [Except.ok.injEq, Prod.mk.injEq] at h
      exact ⟨v, w, rfl, hw, h.1.symm, h.2.symm⟩

theorem podExtractor_ok {file : Option YVal} {m : ManifestObj} {cs : List Container}
    (h : podExtractor file = .ok (m, cs)) :
    ∃ v p, file = some v ∧ decodePod v = .ok p ∧ m = .pod p ∧
      cs = p.spec.containers := by
  cases file with
  | none => simp [podExtractor, newExtractor, unmarshalK8sResource] at h
  | some v =>
    simp only [podExtractor, newExtractor, unmarshalK8sResource] at h
    cases hp : decodePod v <;> rw [hp] at h
    · simp at h
    case ok p =>
      simp only [Except.ok.injEq, Prod.mk.injEq] at h
      exact ⟨v, p, rfl, hp, h.1.symm, h.2.symm⟩

theorem extractor_containers {k : String} {e : ContainerExtractor}
    {file : Option YVal} {m : ManifestObj} {cs : List Container}
    (hk : extractorMap.lookup k = some e) (h : e file = .ok (m, cs)) :
    cs = containersOf m := by
  rcases lookup_extractorMap hk with ⟨-, rfl⟩ | ⟨-, rfl⟩
  · obtain ⟨v, w, -, -, rfl, rfl⟩ := workloadExtractor_ok h
    rfl
  · obtain ⟨v, p, -, -, rfl, rfl⟩ := podExtractor_ok h
    rfl

theorem setFirstResources_length (cs : List Container) (r : ResourceRequirements) :
    (setFirstResources cs r).length = cs.length := by
  cases cs <;> simp [setFirstResources]

theorem setFirstResources_cons (c : Container) (cs : List Container)
    (r : ResourceRequirements) :
    setFirstResources (c :: cs) r = { c with resources := r } :: cs := rfl

theorem setFirstResources_idem (cs : List Container) (r : ResourceRequirements) :
    setFirstResources (setFirstResources cs r) r = setFirstResources cs r := by
  cases cs <;> simp [setFirstResources]

theorem containersOf_update (m : ManifestObj) (r : ResourceRequirements) :
    containersOf (updateFirstContainerResources m r) =
      setFirstResources (containersOf m) r := by
  cases m <;> rfl

theorem apiVersionOf_update (m : ManifestObj) (r : ResourceRequirements) :
    apiVersionOf (updateFirstContainerResources m r) = apiVersionOf m := by
  cases m <;> rfl

theorem kindOf_update (m : ManifestObj) (r : ResourceRequirements) :
    kindOf (updateFirstContainerResources m r) = kindOf m := by
  cases m <;> rfl

theorem metaNameOf_update (m : ManifestObj) (r : ResourceRequirements) :
    metaNameOf (updateFirstContainerResources m r) = metaNameOf m := by
  cases m <;> rfl

theorem update_update (m : ManifestObj) (r : ResourceRequirements) :
    updateFirstContainerResources (updateFirstContainerResources m r) r =
      updateFirstContainerResources m r := by
  cases m with
  | workload w => simp [updateFirstContainerResources, setFirstResources_idem]
  | pod p => simp [updateFirstContainerResources, setFirstResources_idem]

theorem canonRR_newRequirements (cfg : ResourceConfig) :
    canonRR (newRequirements cfg) := by
  constructor <;> simp [newRequirements, canonRL] <;> decide

theorem canonM_update {m : ManifestObj} {r : ResourceRequirements}
    (hm : canonM m) (hr : canonRR r) :
    canonM (updateFirstContainerResources m r) := by
  intro c hc
  rw [containersOf_update] at hc
  rcases hcs : containersOf m with - | ⟨c0, rest⟩
  · rw [hcs] at hc
    simp [setFirstResources] at hc
  · rw [hcs, setFirstResources_cons] at hc
    rcases List.mem_cons.mp hc with rfl | hc
    · exact hr
    · exact hm c (by rw [hcs]; exact List.mem_cons_of_mem _ hc)

/-! Success-path characterisation of Patch, and the re-extraction
round trip used for the frame and idempotence claims. -/

theorem Patch_eq_ok {file : Option YVal} {kind : String} {e : ContainerExtractor}
    {m : ManifestObj} {cs : List Container} (cfg : ResourceConfig)
    (hk : getKind file = .ok kind) (he : extractorMap.lookup kind = some e)
    (hx : e file = .ok (m, cs)) (hne : cs ≠ []) :
    Patch file cfg =
      .ok (marshal (updateFirstContainerResources m (newRequirements cfg)),
           if cs.length > 1 then [multiContainerWarning kind] else []) := by
  have hz : ¬cs.length = 0 := by simpa using hne
  simp only [Patch, hk, he, hx, hz, if_true, if_false, ite_false]

theorem Patch_ok_inversion {file : Option YVal} {cfg : ResourceConfig}
    {o : YVal} {warns : List String}
    (h : Patch file cfg = .ok (o, warns)) :
    ∃ kind e m, getKind file = .ok kind ∧ extractorMap.lookup kind = some e ∧
      e file = .ok (m, containersOf m) ∧ containersOf m ≠ [] ∧
      o = marshal (updateFirstContainerResources m (newRequirements cfg)) ∧
      warns = (if (containersOf m).length > 1 then [multiContainerWarning kind] else []) := by
  rw [Patch] at h
  split at h
  · exact absurd h (by simp)
  next kind hk =>
    split at h
    · exact absurd h (by simp)
    next e he =>
      split at h
      · exact absurd h (by simp)
      next m cs hx =>
        have hcs : cs = containersOf m := extractor_containers he hx
        subst hcs
        split at h
        · exact absurd h (by simp)
        next hz =>
          simp only [Except.ok.injEq, Prod.mk.injEq] at h
          exact ⟨kind, e, m, hk, he, hx, by simpa using hz, h.1.symm, h.2.symm⟩

theorem marshal_workload_extract {w : Workload}
    (hc : ∀ c ∈ w.spec.template.spec.containers, canonC c) :
    workloadExtractor (some (marshal (.workload w))) =
      .ok (.workload w, w.spec.template.spec.containers) := by
  simp [workloadExtractor, newExtractor, unmarshalK8sResource, marshal,
    decodeWorkload_encode hc]

theorem marshal_pod_extract {p : Pod} (hc : ∀ c ∈ p.spec.containers, canonC c) :
    podExtractor (some (marshal (.pod p))) = .ok (.pod p, p.spec.containers) := by
  simp [podExtractor, newExtractor, unmarshalK8sResource, marshal,
    decodePod_encode hc]

theorem getKind_marshal (m : ManifestObj) :
    getKind (some (marshal m)) = .ok (kindOf m) := by
  cases m with
  | workload w =>
    simp [getKind, marshal, decodeTypeMeta_encodeWorkload, kindOf]
  | pod p =>
    simp [getKind, marshal, decodeTypeMeta_encodePod, kindOf]

theorem getKind_some_inv {v : YVal} {k : String}
    (h : getKind (some v) = .ok k) : decodeTypeMeta v = .ok k := by
  rw [getKind] at h
  cases hd : decodeTypeMeta v <;> rw [hd] at h
  · simp at h
  · simpa using h

theorem update_workload (w : Workload) (r : ResourceRequirements) :
    updateFirstContainerResources (.workload w) r =
      .workload { w with spec := ⟨⟨⟨setFirstResources w.spec.template.spec.containers r⟩⟩⟩ } := rfl

theorem update_pod (p : Pod) (r : ResourceRequirements) :
    updateFirstContainerResources (.pod p) r =
      .pod { p with spec := ⟨setFirstResources p.spec.containers r⟩ } := rfl

theorem setFirstResources_canon {cs : List Container} {r : ResourceRequirements}
    (h : ∀ c ∈ cs, canonC c) (hr : canonRR r) :
    ∀ c ∈ setFirstResources cs r, canonC c := by
  cases cs with
  | nil => simp [setFirstResources]
  | cons c0 rest =>
    rw [setFirstResources_cons]
    intro c hc
    rcases List.mem_cons.mp hc with rfl | hc
    · exact hr
    · exact h c (List.mem_cons_of_mem _ hc)

/-! Claim theorems. -/

/-- C7: an input that is not parseable as a structured document makes the
kind resolver fail with the malformed-document (YAML unmarshal) error, and
Patch propagates exactly that error, producing no output bytes.  Unparseable
byte sequences are collapsed to the value none in this embedding. -/
theorem patch_malformed_input (cfg : ResourceConfig) :
    getKind none = .error "YAML unmarshal error: input is not a structured document" ∧
    Patch none cfg = .error "YAML unmarshal error: input is not a structured document" :=
  ⟨rfl, rfl⟩

/-- C8: a supported-kind manifest whose resolved container list is empty
makes Patch fail with the no-containers error and produce no output. -/
theorem patch_no_containers {v : YVal} {kind : String} {e : ContainerExtractor}
    {m : ManifestObj} (cfg : ResourceConfig)
    (hk : getKind (some v) = .ok kind) (he : extractorMap.lookup kind = some e)
    (hx : e (some v) = .ok (m, [])) :
    Patch (some v) cfg = .error ("no containers found in " ++ kind) := by
  simp [Patch, hk, he, hx]

/-- Witness for C8: a Deployment with an empty container list fails with
the no-containers error. -/
theorem patch_no_containers_witness :
    getKind (some noContainersDoc) = .ok "Deployment" ∧
    extractorMap.lookup "Deployment" = some workloadExtractor ∧
    workloadExtractor (some noContainersDoc) =
      .ok (.workload { apiVersion := "apps/v1", kind := "Deployment",
                       metadata := ⟨"empty"⟩, spec := ⟨⟨⟨[]⟩⟩⟩ }, []) ∧
    Patch (some noContainersDoc) cfgEx = .error "no containers found in Deployment" :=
  ⟨rfl, rfl, rfl, patch_no_containers cfgEx rfl rfl rfl⟩

/-- C6 counterexample: the document [] is parseable and has no kind field,
yet Patch does not return the unsupported-kind error for it: the resolver's
unmarshal (malformed-document style) error comes back instead, because a
non-mapping document cannot be unmarshalled into the typeMeta struct.  The
last conjunct certifies the returned message is not an unsupported-kind
error: every unsupported-kind message starts with that fixed prefix, and
the returned message does not. -/
theorem patch_unsupported_kind_cex :
    yGet (.arr []) "kind" = none ∧
    Patch (some (.arr [])) cfgEx =
      .error "YAML unmarshal error: cannot unmarshal value into object" ∧
    ("YAML unmarshal error: cannot unmarshal value into object").toList.take
      ("unsupported kind: ").toList.length ≠ ("unsupported kind: ").toList :=
  ⟨rfl, rfl, by decide⟩

/-- C6 (amended): for every parseable document on which the kind resolver
succeeds (mapping or null documents), if the resolved kind (empty when the
field is absent) is not one of the five supported kinds then Patch returns
the unsupported-kind error naming that kind, and no output bytes.
Parseable non-mapping documents instead surface the resolver's unmarshal
error. -/
theorem patch_unsupported_kind {v : YVal} {k : String} (cfg : ResourceConfig)
    (hk : decodeTypeMeta v = .ok k)
    (hns : k ∉ ["Deployment", "DaemonSet", "StatefulSet", "Pod", "Job"]) :
    Patch (some v) cfg = .error ("unsupported kind: " ++ k) := by
  simp [Patch, getKind, hk, lookup_extractorMap_none hns]

/-- Witness for C6: a Service manifest yields the unsupported-kind error. -/
theorem patch_unsupported_kind_witness :
    decodeTypeMeta svcDoc = .ok "Service" ∧
    ("Service" : String) ∉ (["Deployment", "DaemonSet", "StatefulSet", "Pod", "Job"] : List String) ∧
    Patch (some svcDoc) cfgEx = .error "unsupported kind: Service" :=
  ⟨rfl, by decide, patch_unsupported_kind cfgEx rfl (by decide)⟩

/-- C9 counterexample: the document [] parses as a structured document and
lacks a top-level kind field, yet getKind does not return the empty string
with no error: it reports an unmarshal failure for this well-formed
document, which Patch propagates as a malformed-document style error. -/
theorem getKind_missing_kind_cex :
    yGet (.arr []) "kind" = none ∧
    getKind (some (.arr [])) =
      .error "YAML unmarshal error: cannot unmarshal value into object" :=
  ⟨rfl, rfl⟩

/-- C9 (amended): for every document that parses as a mapping without a
kind field, getKind returns the empty string with no error, and Patch then
classifies it as the unsupported-kind error with an empty kind name, never
as a malformed-document error.  Well-formed non-mapping documents instead
make getKind itself report an unmarshal failure. -/
theorem getKind_missing_kind {kvs : List (String × YVal)} (cfg : ResourceConfig)
    (h : lookupField kvs "kind" = none) :
    getKind (some (.obj kvs)) = .ok "" ∧
    Patch (some (.obj kvs)) cfg = .error "unsupported kind: " := by
  have h1 : decodeTypeMeta (.obj kvs) = .ok "" := by
    simp [decodeTypeMeta, decodeStrField, h]
  constructor
  · simp [getKind, h1]
  · have h2 := patch_unsupported_kind cfg h1 (by decide)
    simpa using h2

/-- Witness for C9: the empty mapping document resolves to the empty kind
and the unsupported-kind error. -/
theorem getKind_missing_kind_witness :
    lookupField [] "kind" = none ∧
    (getKind (some (.obj [])) = .ok "" ∧
     Patch (some (.obj [])) cfgEx = .error "unsupported kind: ") :=
  ⟨rfl, getKind_missing_kind cfgEx rfl⟩

/-- C2: a Patch call either returns an error and no output bytes (the two
sides of the sum type are mutually exclusive), or it succeeds, in which
case the output is exactly the re-serialisation of the decoded manifest
with container 0's resource requirements replaced by the supplied set:
every other component of the manifest (apiVersion, kind, metadata name,
the names and images of all containers, and every container after index 0)
is unchanged.  Unchanged is at the decoded-manifest level: the spec's
non-goals limit fidelity to the round-trip marshal. -/
theorem patch_all_or_nothing (file : Option YVal) (cfg : ResourceConfig) :
    (∃ e, Patch file cfg = .error e) ∨
    (∃ kind e m c0 rest, getKind file = .ok kind ∧ extractorMap.lookup kind = some e ∧
      e file = .ok (m, containersOf m) ∧ containersOf m = c0 :: rest ∧
      Patch file cfg =
        .ok (marshal (updateFirstContainerResources m (newRequirements cfg)),
             if (containersOf m).length > 1 then [multiContainerWarning kind] else []) ∧
      containersOf (updateFirstContainerResources m (newRequirements cfg)) =
        ({ c0 with resources := newRequirements cfg }) :: rest ∧
      apiVersionOf (updateFirstContainerResources m (newRequirements cfg)) = apiVersionOf m ∧
      kindOf (updateFirstContainerResources m (newRequirements cfg)) = kindOf m ∧
      metaNameOf (updateFirstContainerResources m (newRequirements cfg)) = metaNameOf m ∧
      (containersOf (updateFirstContainerResources m (newRequirements cfg))).map
          (fun c => (c.name, c.image)) =
        (containersOf m).map (fun c => (c.name, c.image))) := by
  cases hp : Patch file cfg with
  | error e => exact Or.inl ⟨e, rfl⟩
  | ok pr =>
    obtain ⟨o, warns⟩ := pr
    obtain ⟨kind, e, m, hk, he, hx, hne, ho, hw⟩ := Patch_ok_inversion hp
    rcases hcs : containersOf m with - | ⟨c0, rest⟩
    · exact absurd hcs hne
    · refine Or.inr ⟨kind, e, m, c0, rest, hk, he, hx, hcs, ?_, ?_,apiVersionOf_update m _,
        kindOf_update m _, metaNameOf_update m _, ?_⟩
      · rw [ho, hw]
      · rw [containersOf_update, hcs, setFirstResources_cons]
      · rw [containersOf_update, hcs, setFirstResources_cons]
        simp

/-- C3: patching a supported-kind manifest whose container list has exactly
two containers succeeds (it does not abort), returns the re-serialised
manifest with only container 0's resources replaced, and emits exactly the
multiple-containers warning line.  Re-extracting the returned document with
the same kind's extractor shows container index 0 carrying the supplied
resource set while container index 1 is identical to its decoding from the
input. -/
theorem patch_two_containers {v : YVal} {kind : String} {e : ContainerExtractor}
    {m : ManifestObj} {c0 c1 : Container} (cfg : ResourceConfig)
    (hk : getKind (some v) = .ok kind) (he : extractorMap.lookup kind = some e)
    (hx : e (some v) = .ok (m, [c0, c1])) :
    Patch (some v) cfg =
      .ok (marshal (updateFirstContainerResources m (newRequirements cfg)),
           [multiContainerWarning kind]) ∧
    e (some (marshal (updateFirstContainerResources m (newRequirements cfg)))) =
      .ok (updateFirstContainerResources m (newRequirements cfg),
           ({ c0 with resources := newRequirements cfg }) :: [c1]) := by
  have hcs : ([c0, c1] : List Container) = containersOf m := extractor_containers he hx
  constructor
  · have h := Patch_eq_ok cfg hk he hx (by simp)
    simpa using h
  · rcases lookup_extractorMap he with ⟨-, rfl⟩ | ⟨-, rfl⟩
    · obtain ⟨v', w, hv, hw, rfl, -⟩ := workloadExtractor_ok hx
      have hcanon := decodeWorkload_canon hw
      have hwc : w.spec.template.spec.containers = [c0, c1] := by
        simpa [containersOf] using hcs.symm
      rw [update_workload]
      have hcanon' : ∀ c ∈ setFirstResources w.spec.template.spec.containers
          (newRequirements cfg), canonC c := by
        rw [hwc, setFirstResources_cons]
        intro c hc
        rcases List.mem_cons.mp hc with rfl | hc
        · exact canonRR_newRequirements cfg
        · exact hcanon c (by rw [hwc]; exact List.mem_cons_of_mem _ hc)
      have h := marshal_workload_extract (w :=
        { w with spec := ⟨⟨⟨setFirstResources w.spec.template.spec.containers
            (newRequirements cfg)⟩⟩⟩ }) (by simpa using hcanon')
      rw [h]
      rw [hwc, setFirstResources_cons]
    · obtain ⟨v', p, hv, hp, rfl, -⟩ := podExtractor_ok hx
      have hcanon := decodePod_canon hp
      have hpc : p.spec.containers = [c0, c1] := by
        simpa [containersOf] using hcs.symm
      rw [update_pod]
      have hcanon' : ∀ c ∈ setFirstResources p.spec.containers
          (newRequirements cfg), canonC c := by
        rw [hpc, setFirstResources_cons]
        intro c hc
        rcases List.mem_cons.mp hc with rfl | hc
        · exact canonRR_newRequirements cfg
        · exact hcanon c (by rw [hpc]; exact List.mem_cons_of_mem _ hc)
      have h := marshal_pod_extract (p :=
        { p with spec := ⟨setFirstResources p.spec.containers (newRequirements cfg)⟩ })
        (by simpa using hcanon')
      rw [h]
      rw [hpc, setFirstResources_cons]

/-- Witness for C3: a concrete two-container Deployment is patched with a
warning, container 0 rewritten and container 1 untouched. -/
theorem patch_two_containers_witness :
    getKind (some twoDoc) = .ok "Deployment" ∧
    extractorMap.lookup "Deployment" = some workloadExtractor ∧
    workloadExtractor (some twoDoc) = .ok (.workload twoW, [twoC0, twoC1]) ∧
    (Patch (some twoDoc) cfgEx =
      .ok (marshal (updateFirstContainerResources (.workload twoW) (newRequirements cfgEx)),
           [multiContainerWarning "Deployment"]) ∧
     workloadExtractor
        (some (marshal (updateFirstContainerResources (.workload twoW) (newRequirements cfgEx)))) =
      .ok (updateFirstContainerResources (.workload twoW) (newRequirements cfgEx),
           ({ twoC0 with resources := newRequirements cfgEx }) :: [twoC1])) :=
  ⟨rfl, rfl, rfl, patch_two_containers cfgEx rfl rfl rfl⟩

/-- C4 counterexample: the overwrite assigns a whole fresh
ResourceRequirements struct, so a resources field other than
requests/limits does not keep its input value: container 0's
resources.claims list ([{name: gpu}] in the input document) is absent from
the patched output. -/
theorem patch_overwrite_cex :
    (container0 "Deployment" c4Doc).bind (fun c => yPath c ["resources", "claims"]) =
      some (.arr [.obj [("name", .str "gpu")]]) ∧
    Patch (some c4Doc) cfgEx = .ok (patchOut (some c4Doc) cfgEx, []) ∧
    (container0 "Deployment" (patchOut (some c4Doc) cfgEx)).bind
      (fun c => yPath c ["resources", "claims"]) = none :=
  ⟨rfl, rfl, rfl⟩

/-- C4 (amended): Patch replaces container 0's entire resources field with
a fresh record: the requests map and the limits map are replaced wholesale
with exactly cpu and memory from the ResourceConfig (pre-existing keys such
as ephemeral-storage do not survive), the claims list is reset to empty,
and every field of container 0 outside resources (its name and image)
keeps its input value, as do all later containers. -/
theorem patch_overwrites_requests_limits {v : YVal} {kind : String}
    {e : ContainerExtractor} {m : ManifestObj} {c0 : Container}
    {rest : List Container} (cfg : ResourceConfig)
    (hk : getKind (some v) = .ok kind) (he : extractorMap.lookup kind = some e)
    (hx : e (some v) = .ok (m, c0 :: rest)) :
    Patch (some v) cfg =
      .ok (marshal (updateFirstContainerResources m (newRequirements cfg)),
           if (c0 :: rest).length > 1 then [multiContainerWarning kind] else []) ∧
    e (some (marshal (updateFirstContainerResources m (newRequirements cfg)))) =
      .ok (updateFirstContainerResources m (newRequirements cfg),
           ({ name := c0.name, image := c0.image,
              resources :=
                { limits := [("cpu", cfg.cpuLimit), ("memory", cfg.memLimit)],
                  requests := [("cpu", cfg.cpuRequest), ("memory", cfg.memRequest)],
                  claims := [] } } : Container) :: rest) := by
  have hcs : (c0 :: rest : List Container) = containersOf m := extractor_containers he hx
  constructor
  · exact Patch_eq_ok cfg hk he hx (by simp)
  · rcases lookup_extractorMap he with ⟨-, rfl⟩ | ⟨-, rfl⟩
    · obtain ⟨v', w, hv, hw, rfl, -⟩ := workloadExtractor_ok hx
      have hcanon := decodeWorkload_canon hw
      have hwc : w.spec.template.spec.containers = c0 :: rest := by
        simpa [containersOf] using hcs.symm
      rw [update_workload]
      have hcanon' : ∀ c ∈ setFirstResources w.spec.template.spec.containers
          (newRequirements cfg), canonC c := by
        rw [hwc, setFirstResources_cons]
        intro c hc
        rcases List.mem_cons.mp hc with rfl | hc
        · exact canonRR_newRequirements cfg
        · exact hcanon c (by rw [hwc]; exact List.mem_cons_of_mem _ hc)
      have h := marshal_workload_extract (w :=
        { w with spec := ⟨⟨⟨setFirstResources w.spec.template.spec.containers
            (newRequirements cfg)⟩⟩⟩ }) (by simpa using hcanon')
      rw [h]
      rw [hwc, setFirstResources_cons]
      rfl
    · obtain ⟨v', p, hv, hp, rfl, -⟩ := podExtractor_ok hx
      have hcanon := decodePod_canon hp
      have hpc : p.spec.containers = c0 :: rest := by
        simpa [containersOf] using hcs.symm
      rw [update_pod]
      have hcanon' : ∀ c ∈ setFirstResources p.spec.containers
          (newRequirements cfg), canonC c := by
        rw [hpc, setFirstResources_cons]
        intro c hc
        rcases List.mem_cons.mp hc with rfl | hc
        · exact canonRR_newRequirements cfg
        · exact hcanon c (by rw [hpc]; exact List.mem_cons_of_mem _ hc)
      have h := marshal_pod_extract (p :=
        { p with spec := ⟨setFirstResources p.spec.containers (newRequirements cfg)⟩ })
        (by simpa using hcanon')
      rw [h]
      rw [hpc, setFirstResources_cons]
      rfl

/-- Witness for C4 (amended): the container that already carried requests
(with an ephemeral-storage key), limits and a claim is overwritten
wholesale. -/
theorem patch_overwrites_requests_limits_witness :
    getKind (some c4Doc) = .ok "Deployment" ∧
    extractorMap.lookup "Deployment" = some workloadExtractor ∧
    workloadExtractor (some c4Doc) = .ok (.workload c4W, [c4C0]) ∧
    (Patch (some c4Doc) cfgEx =
      .ok (marshal (updateFirstContainerResources (.workload c4W) (newRequirements cfgEx)),
           if ([c4C0] : List Container).length > 1
           then [multiContainerWarning "Deployment"] else []) ∧
     workloadExtractor
        (some (marshal (updateFirstContainerResources (.workload c4W) (newRequirements cfgEx)))) =
      .ok (updateFirstContainerResources (.workload c4W) (newRequirements cfgEx),
           ({ name := c4C0.name, image := c4C0.image,
              resources :=
                { limits := [("cpu", cfgEx.cpuLimit), ("memory", cfgEx.memLimit)],
                  requests := [("cpu", cfgEx.cpuRequest), ("memory", cfgEx.memRequest)],
                  claims := [] } } : Container) :: [])) :=
  ⟨rfl, rfl, rfl, patch_overwrites_requests_limits cfgEx rfl rfl rfl⟩

/-- C5: Patch is idempotent for a fixed quantity set.  When
Patch(bytes, cfg) succeeds with output document o and warnings w, feeding o
back in with the same cfg succeeds again and returns exactly the same
document o (and the same warnings): the resource values are unchanged and
no keys are duplicated. -/
theorem patch_idempotent {file : Option YVal} {cfg : ResourceConfig}
    {o : YVal} {w : List String}
    (h : Patch file cfg = .ok (o, w)) : Patch (some o) cfg = .ok (o, w) := by
  obtain ⟨kind, e, m, hk, he, hx, hne, ho, hw⟩ := Patch_ok_inversion h
  rcases lookup_extractorMap he with ⟨-, rfl⟩ | ⟨-, rfl⟩
  · obtain ⟨v, w0, hfile, hdec, rfl, -⟩ := workloadExtractor_ok hx
    subst hfile
    have hkind : w0.kind = kind := by
      have h1 := getKind_some_inv hk
      have h2 := decodeWorkload_kind hdec
      rw [h1] at h2
      injection h2 with h2
      exact h2.symm
    have hcanon := decodeWorkload_canon hdec
    rw [update_workload] at ho
    set w1 : Workload :=
      { w0 with spec := ⟨⟨⟨setFirstResources w0.spec.template.spec.containers
          (newRequirements cfg)⟩⟩⟩ } with hw1
    have hc1 : ∀ c ∈ w1.spec.template.spec.containers, canonC c := by
      rw [hw1]
      exact setFirstResources_canon hcanon (canonRR_newRequirements cfg)
    have hk' : getKind (some o) = .ok kind := by
      rw [ho]
      have := getKind_marshal (.workload w1)
      rw [this]
      have : kindOf (.workload w1) = kind := by
        rw [hw1]
        simpa [kindOf] using hkind
      rw [this]
    have hx' : workloadExtractor (some o) =
        .ok (.workload w1, w1.spec.template.spec.containers) := by
      rw [ho]
      exact marshal_workload_extract hc1
    have hlen : w1.spec.template.spec.containers.length =
        (containersOf (.workload w0)).length := by
      rw [hw1]
      simpa [containersOf] using
        setFirstResources_length w0.spec.template.spec.containers (newRequirements cfg)
    have hne' : w1.spec.template.spec.containers ≠ [] := by
      intro hnil
      apply hne
      have := hlen
      rw [hnil] at this
      simpa [containersOf] using (List.length_eq_zero.mp this.symm)
    have hp := Patch_eq_ok cfg hk' he hx' hne'
    rw [hp]
    have hupd : updateFirstContainerResources (.workload w1) (newRequirements cfg) =
        .workload w1 := by
      have h2 := update_update (.workload w0) (newRequirements cfg)
      rw [update_workload, ← hw1] at h2
      rw [update_workload] at h2
      rw [update_workload]
      exact h2
    rw [hupd, ← ho, hw, hlen]
  · obtain ⟨v, p0, hfile, hdec, rfl, -⟩ := podExtractor_ok hx
    subst hfile
    have hkind : p0.kind = kind := by
      have h1 := getKind_some_inv hk
      have h2 := decodePod_kind hdec
      rw [h1] at h2
      injection h2 with h2
      exact h2.symm
    have hcanon := decodePod_canon hdec
    rw [update_pod] at ho
    set p1 : Pod :=
      { p0 with spec := ⟨setFirstResources p0.spec.containers (newRequirements cfg)⟩ }
      with hp1
    have hc1 : ∀ c ∈ p1.spec.containers, canonC c := by
      rw [hp1]
      exact setFirstResources_canon hcanon (canonRR_newRequirements cfg)
    have hk' : getKind (some o) = .ok kind := by
      rw [ho]
      have := getKind_marshal (.pod p1)
      rw [this]
      have : kindOf (.pod p1) = kind := by
        rw [hp1]
        simpa [kindOf] using hkind
      rw [this]
    have hx' : podExtractor (some o) = .ok (.pod p1, p1.spec.containers) := by
      rw [ho]
      exact marshal_pod_extract hc1
    have hlen : p1.spec.containers.length = (containersOf (.pod p0)).length := by
      rw [hp1]
      simpa [containersOf] using
        setFirstResources_length p0.spec.containers (newRequirements cfg)
    have hne' : p1.spec.containers ≠ [] := by
      intro hnil
      apply hne
      have := hlen
      rw [hnil] at this
      simpa [containersOf] using (List.length_eq_zero.mp this.symm)
    have hp := Patch_eq_ok cfg hk' he hx' hne'
    rw [hp]
    have hupd : updateFirstContainerResources (.pod p1) (newRequirements cfg) =
        .pod p1 := by
      have h2 := update_update (.pod p0) (newRequirements cfg)
      rw [update_pod, ← hp1] at h2
      rw [update_pod] at h2
      rw [update_pod]
      exact h2
    rw [hupd, ← ho, hw, hlen]

/-- Witness for C5: patching a minimal StatefulSet twice yields the same
document both times. -/
theorem patch_idempotent_witness :
    Patch (some (minimalManifest "StatefulSet" "apps/v1" "st" "app" "redis")) cfgEx2 =
      .ok (patchOut (some (minimalManifest "StatefulSet" "apps/v1" "st" "app" "redis")) cfgEx2,
           []) ∧
    Patch (some (patchOut (some (minimalManifest "StatefulSet" "apps/v1" "st" "app" "redis"))
        cfgEx2)) cfgEx2 =
      .ok (patchOut (some (minimalManifest "StatefulSet" "apps/v1" "st" "app" "redis")) cfgEx2,
           []) :=
  ⟨rfl, @patch_idempotent
      (some (minimalManifest "StatefulSet" "apps/v1" "st" "app" "redis")) cfgEx2
      (patchOut (some (minimalManifest "StatefulSet" "apps/v1" "st" "app" "redis")) cfgEx2)
      [] rfl⟩

/-- C1: for each of the five supported kinds, patching the minimal valid
one-container manifest succeeds with no warning, and in the returned
document the container's resources.requests.cpu, resources.requests.memory,
resources.limits.cpu and resources.limits.memory are exactly the supplied
quantities, while apiVersion, metadata.name and the container's name and
image keep their input values.  The non-emptiness hypotheses keep the
omitempty re-marshalling from dropping the compared fields. -/
theorem patch_minimal_manifest (kind : String)
    (hk : kind ∈ (["Deployment", "DaemonSet", "StatefulSet", "Pod", "Job"] : List String))
    (apiV mName cName img : String) (cfg : ResourceConfig)
    (ha : apiV ≠ "") (hm : mName ≠ "") (hi : img ≠ "") :
    Patch (some (minimalManifest kind apiV mName cName img)) cfg =
      .ok (patchOut (some (minimalManifest kind apiV mName cName img)) cfg, []) ∧
    (let out := patchOut (some (minimalManifest kind apiV mName cName img)) cfg
     yPath out ["apiVersion"] = some (.str apiV) ∧
     yPath out ["metadata", "name"] = some (.str mName) ∧
     (container0 kind out).bind (fun c => yGet c "name") = some (.str cName) ∧
     (container0 kind out).bind (fun c => yGet c "image") = some (.str img) ∧
     (container0 kind out).bind (fun c => yPath c ["resources", "requests", "cpu"]) =
       some (.str cfg.cpuRequest) ∧
     (container0 kind out).bind (fun c => yPath c ["resources", "requests", "memory"]) =
       some (.str cfg.memRequest) ∧
     (container0 kind out).bind (fun c => yPath c ["resources", "limits", "cpu"]) =
       some (.str cfg.cpuLimit) ∧
     (container0 kind out).bind (fun c => yPath c ["resources", "limits", "memory"]) =
       some (.str cfg.memLimit)) := by
  simp only [List.mem_cons, List.not_mem_nil, or_false] at hk
  rcases hk with hkind | hkind | hkind | hkind | hkind
  · subst hkind
    simp only [minimalManifest, reduceIte]
    constructor
    · simp [Patch, getKind, decodeTypeMeta, decodeStrField, lookupField,
        decodeString, decodeWorkload, optField, decodeMeta, decodeWorkloadSpec, decodeTemplate,
        decodePodSpec, decodeContainers, decodeContainerList, decodeContainer, decodeResources,
        workloadExtractor, newExtractor, unmarshalK8sResource, extractorMap, List.lookup,
        patchOut]
    · simp [Patch, getKind, decodeTypeMeta, decodeStrField, lookupField,
        decodeString, decodeWorkload, optField, decodeMeta, decodeWorkloadSpec, decodeTemplate,
        decodePodSpec, decodeContainers, decodeContainerList, decodeContainer, decodeResources,
        workloadExtractor, newExtractor, unmarshalK8sResource, extractorMap, List.lookup,
        patchOut, updateFirstContainerResources, setFirstResources, newRequirements, marshal,
        encodeWorkload, encodeMeta, encodeWorkloadSpec, encodeTemplate, encodePodSpec,
        encodeContainer, encodeResources, encodeResourceList, encodeClaims,
        yPath, yGet, container0, containersPath, yIdx, ha, hm, hi]
  · subst hkind
    simp only [minimalManifest, reduceIte]
    constructor
    · simp [Patch, getKind, decodeTypeMeta, decodeStrField, lookupField,
        decodeString, decodeWorkload, optField, decodeMeta, decodeWorkloadSpec, decodeTemplate,
        decodePodSpec, decodeContainers, decodeContainerList, decodeContainer, decodeResources,
        workloadExtractor, newExtractor, unmarshalK8sResource, extractorMap, List.lookup,
        patchOut]
    · simp [Patch, getKind, decodeTypeMeta, decodeStrField, lookupField,
        decodeString, decodeWorkload, optField, decodeMeta, decodeWorkloadSpec, decodeTemplate,
        decodePodSpec, decodeContainers, decodeContainerList, decodeContainer, decodeResources,
        workloadExtractor, newExtractor, unmarshalK8sResource, extractorMap, List.lookup,
        patchOut, updateFirstContainerResources, setFirstResources, newRequirements, marshal,
        encodeWorkload, encodeMeta, encodeWorkloadSpec, encodeTemplate, encodePodSpec,
        encodeContainer, encodeResources, encodeResourceList, encodeClaims,
        yPath, yGet, container0, containersPath, yIdx, ha, hm, hi]
  · subst hkind
    simp only [minimalManifest, reduceIte]
    constructor
    · simp [Patch, getKind, decodeTypeMeta, decodeStrField, lookupField,
        decodeString, decodeWorkload, optField, decodeMeta, decodeWorkloadSpec, decodeTemplate,
        decodePodSpec, decodeContainers, decodeContainerList, decodeContainer, decodeResources,
        workloadExtractor, newExtractor, unmarshalK8sResource, extractorMap, List.lookup,
        patchOut]
    · simp [Patch, getKind, decodeTypeMeta, decodeStrField, lookupField,
        decodeString, decodeWorkload, optField, decodeMeta, decodeWorkloadSpec, decodeTemplate,
        decodePodSpec, decodeContainers, decodeContainerList, decodeContainer, decodeResources,
        workloadExtractor, newExtractor, unmarshalK8sResource, extractorMap, List.lookup,
        patchOut, updateFirstContainerResources, setFirstResources, newRequirements, marshal,
        encodeWorkload, encodeMeta, encodeWorkloadSpec, encodeTemplate, encodePodSpec,
        encodeContainer, encodeResources, encodeResourceList, encodeClaims,
        yPath, yGet, container0, containersPath, yIdx, ha, hm, hi]
  · subst hkind
    simp only [minimalManifest, reduceIte]
    constructor
    · simp [Patch, getKind, decodeTypeMeta, decodeStrField, lookupField,
        decodeString, decodePod, optField, decodeMeta, decodePodSpec, decodeContainers, decodeContainerList, decodeContainer, decodeResources,
        podExtractor, newExtractor, unmarshalK8sResource, extractorMap, List.lookup,
        patchOut]
    · simp [Patch, getKind, decodeTypeMeta, decodeStrField, lookupField,
        decodeString, decodePod, optField, decodeMeta, decodePodSpec, decodeContainers, decodeContainerList, decodeContainer, decodeResources,
        podExtractor, newExtractor, unmarshalK8sResource, extractorMap, List.lookup,
        patchOut, updateFirstContainerResources, setFirstResources, newRequirements, marshal,
        encodePod, encodeMeta, encodePodSpec,
        encodeContainer, encodeResources, encodeResourceList, encodeClaims,
        yPath, yGet, container0, containersPath, yIdx, ha, hm, hi]
  · subst hkind
    simp only [minimalManifest, reduceIte]
    constructor
    · simp [Patch, getKind, decodeTypeMeta, decodeStrField, lookupField,
        decodeString, decodeWorkload, optField, decodeMeta, decodeWorkloadSpec, decodeTemplate,
        decodePodSpec, decodeContainers, decodeContainerList, decodeContainer, decodeResources,
        workloadExtractor, newExtractor, unmarshalK8sResource, extractorMap, List.lookup,
        patchOut]
    · simp [Patch, getKind, decodeTypeMeta, decodeStrField, lookupField,
        decodeString, decodeWorkload, optField, decodeMeta, decodeWorkloadSpec, decodeTemplate,
        decodePodSpec, decodeContainers, decodeContainerList, decodeContainer, decodeResources,
        workloadExtractor, newExtractor, unmarshalK8sResource, extractorMap, List.lookup,
        patchOut, updateFirstContainerResources, setFirstResources, newRequirements, marshal,
        encodeWorkload, encodeMeta, encodeWorkloadSpec, encodeTemplate, encodePodSpec,
        encodeContainer, encodeResources, encodeResourceList, encodeClaims,
        yPath, yGet, container0, containersPath, yIdx, ha, hm, hi]

/-- Witness for C1: concrete Deployment and Pod instances, exercising both
container paths of the extractor table. -/
theorem patch_minimal_manifest_witness :
    ("Deployment" ∈ (["Deployment", "DaemonSet", "StatefulSet", "Pod", "Job"] : List String) ∧
     "Pod" ∈ (["Deployment", "DaemonSet", "StatefulSet", "Pod", "Job"] : List String) ∧
     ("apps/v1" : String) ≠ "" ∧ ("demo" : String) ≠ "" ∧ ("nginx" : String) ≠ "" ∧
     ("v1" : String) ≠ "" ∧ ("podx" : String) ≠ "" ∧ ("busybox" : String) ≠ "") ∧
    (Patch (some (minimalManifest "Deployment" "apps/v1" "demo" "app" "nginx")) cfgEx =
      .ok (patchOut (some (minimalManifest "Deployment" "apps/v1" "demo" "app" "nginx")) cfgEx, []) ∧
     (let out := patchOut (some (minimalManifest "Deployment" "apps/v1" "demo" "app" "nginx")) cfgEx
      yPath out ["apiVersion"] = some (.str "apps/v1") ∧
      yPath out ["metadata", "name"] = some (.str "demo") ∧
      (container0 "Deployment" out).bind (fun c => yGet c "name") = some (.str "app") ∧
      (container0 "Deployment" out).bind (fun c => yGet c "image") = some (.str "nginx") ∧
      (container0 "Deployment" out).bind (fun c => yPath c ["resources", "requests", "cpu"]) =
        some (.str cfgEx.cpuRequest) ∧
      (container0 "Deployment" out).bind (fun c => yPath c ["resources", "requests", "memory"]) =
        some (.str cfgEx.memRequest) ∧
      (container0 "Deployment" out).bind (fun c => yPath c ["resources", "limits", "cpu"]) =
        some (.str cfgEx.cpuLimit) ∧
      (container0 "Deployment" out).bind (fun c => yPath c ["resources", "limits", "memory"]) =
        some (.str cfgEx.memLimit))) ∧
    (Patch (some (minimalManifest "Pod" "v1" "podx" "box" "busybox")) cfgEx =
      .ok (patchOut (some (minimalManifest "Pod" "v1" "podx" "box" "busybox")) cfgEx, []) ∧
     (let out := patchOut (some (minimalManifest "Pod" "v1" "podx" "box" "busybox")) cfgEx
      yPath out ["apiVersion"] = some (.str "v1") ∧
      yPath out ["metadata", "name"] = some (.str "podx") ∧
      (container0 "Pod" out).bind (fun c => yGet c "name") = some (.str "box") ∧
      (container0 "Pod" out).bind (fun c => yGet c "image") = some (.str "busybox") ∧
      (container0 "Pod" out).bind (fun c => yPath c ["resources", "requests", "cpu"]) =
        some (.str cfgEx.cpuRequest) ∧
      (container0 "Pod" out).bind (fun c => yPath c ["resources", "requests", "memory"]) =
        some (.str cfgEx.memRequest) ∧
      (container0 "Pod" out).bind (fun c => yPath c ["resources", "limits", "cpu"]) =
        some (.str cfgEx.cpuLimit) ∧
      (container0 "Pod" out).bind (fun c => yPath c ["resources", "limits", "memory"]) =
        some (.str cfgEx.memLimit))) :=
  ⟨⟨by decide, by decide, by decide, by decide, by decide, by decide, by decide, by decide⟩,
   patch_minimal_manifest "Deployment" (by decide) "apps/v1" "demo" "app" "nginx" cfgEx
     (by decide) (by decide) (by decide),
   patch_minimal_manifest "Pod" (by decide) "v1" "podx" "box" "busybox" cfgEx
     (by decide) (by decide) (by decide)⟩

end K8sAdjust

namespace EnvScript

/-! Structural lemmas about line splitting and joining. -/

theorem splitLines_ne_nil (s : List Char) : splitLines s ≠ [] := by
  induction s with
  | nil => simp [splitLines]
  | cons c rest ih =>
    rw [splitLines]
    split
    · simp
    · cases h : splitLines rest with
      | nil => exact absurd h ih
      | cons l ls => simp

theorem splitLines_no_newline {s : List Char} :
    ∀ l ∈ splitLines s, '\n' ∉ l := by
  induction s with
  | nil =>
    intro l hl
    simp [splitLines] at hl
    simp [hl]
  | cons c rest ih =>
    intro l hl
    rw [splitLines] at hl
    split at hl
    · rcases List.mem_cons.mp hl with rfl | hl
      · simp
      · exact ih l hl
    next hc =>
      cases h : splitLines rest with
      | nil => exact absurd h (splitLines_ne_nil rest)
      | cons l0 ls =>
        rw [h] at hl
        rcases List.mem_cons.mp hl with rfl | hl
        · intro hmem
          rcases List.mem_cons.mp hmem with h' | h'
          · exact hc h'.symm
          · exact ih l0 (h ▸ List.mem_cons_self _ _) h'
        · exact ih l (h ▸ List.mem_cons_of_mem _ hl)

theorem splitLines_append {l : List Char} (hl : '\n' ∉ l) (rest : List Char) :
    splitLines (l ++ '\n' :: rest) = l :: splitLines rest := by
  induction l with
  | nil => simp [splitLines]
  | cons c l' ih =>
    have hc : ¬c = '\n' := fun h => hl (by simp [h])
    have hl' : '\n' ∉ l' := fun h => hl (List.mem_cons_of_mem _ h)
    rw [List.cons_append, splitLines, if_neg hc, ih hl']

theorem joinLines_cons_cons (x y : List Char) (rest : List (List Char)) :
    joinLines (x :: y :: rest) = x ++ '\n' :: joinLines (y :: rest) := rfl

theorem splitLines_joinLines {ls : List (List Char)} (hne : ls ≠ [])
    (hnl : ∀ l ∈ ls, '\n' ∉ l) :
    splitLines (joinLines ls ++ ['\n']) = ls ++ [[]] := by
  induction ls with
  | nil => exact absurd rfl hne
  | cons x ls ih =>
    cases ls with
    | nil =>
      rw [joinLines]
      rw [show (x ++ ['\n'] : List Char) = x ++ '\n' :: [] from rfl]
      rw [splitLines_append (hnl x (by simp)) []]
      rfl
    | cons y rest =>
      rw [joinLines_cons_cons, List.append_assoc, List.cons_append,
        splitLines_append (hnl x (by simp)) _,
        ih (by simp) (fun l hl => hnl l (List.mem_cons_of_mem _ hl))]
      rfl

theorem joinLines_cons_ne_nil {y : List Char} {rest : List (List Char)}
    (h : y ≠ []) : joinLines (y :: rest) ≠ [] := by
  cases rest with
  | nil => simpa [joinLines] using h
  | cons z t =>
    rw [joinLines_cons_cons]
    intro hc
    rcases List.append_eq_nil.mp hc with ⟨-, h2⟩
    simp at h2

theorem joinLines_getLast {ls : List (List Char)} {l : List Char}
    (hne : ∀ l' ∈ ls, l' ≠ []) (h : ls.getLast? = some l) :
    (joinLines ls).getLast? = l.getLast? := by
  induction ls with
  | nil => simp at h
  | cons x ls ih =>
    cases ls with
    | nil =>
      simp only [List.getLast?_singleton, Option.some.injEq] at h
      subst h
      rfl
    | cons y rest =>
      have h' : (y :: rest).getLast? = some l := by
        rw [List.getLast?_cons_cons] at h
        exact h
      have hj : joinLines (y :: rest) ≠ [] :=
        joinLines_cons_ne_nil (hne y (by simp))
      rw [joinLines_cons_cons, List.getLast?_append_of_ne_nil _ (by simp)]
      cases hjj : joinLines (y :: rest) with
      | nil => exact absurd hjj hj
      | cons j t =>
        rw [List.getLast?_cons_cons, ← hjj]
        exact ih (fun l' hl' => hne l' (List.mem_cons_of_mem _ hl')) h'

/-- The scan loop either finds no key-prefixed line and returns the input
with found = false, or it splits the input around the first prefixed line
and replaces exactly that line. -/
theorem replaceFirst_spec (pre newLine : List Char) (ls : List (List Char)) :
    ((∀ l ∈ ls, ¬ pre <+: l) ∧ replaceFirst pre newLine ls = (ls, false)) ∨
    (∃ a l0 b, ls = a ++ l0 :: b ∧ (∀ l ∈ a, ¬ pre <+: l) ∧ (pre <+: l0) ∧
       replaceFirst pre newLine ls = (a ++ newLine :: b, true)) := by
  induction ls with
  | nil => exact Or.inl ⟨by simp, rfl⟩
  | cons l ls ih =>
    by_cases hp : pre.isPrefixOf l
    · refine Or.inr ⟨[], l, ls, by simp, by simp, List.isPrefixOf_iff_prefix.mp hp, ?_⟩
      simp [replaceFirst, hp]
    · have hnp : ¬ pre <+: l := fun h => hp (List.isPrefixOf_iff_prefix.mpr h)
      rcases ih with ⟨hall, heq⟩ | ⟨a, l0, b, hsplit, ha, hl0, heq⟩
      · refine Or.inl ⟨?_, ?_⟩
        · intro l' hl'
          rcases List.mem_cons.mp hl' with rfl | hl'
          · exact hnp
          · exact hall l' hl'
        · simp [replaceFirst, hp, heq]
      · refine Or.inr ⟨l :: a, l0, b, by simp [hsplit], ?_, hl0, ?_⟩
        · intro l' hl'
          rcases List.mem_cons.mp hl' with rfl | hl'
          · exact hnp
          · exact ha l' hl'
        · simp [replaceFirst, hp, heq]

/-- C10 counterexample: with an empty prior content and the value
consisting of a newline character, the rewritten content ends with two
newline characters, not exactly one: the character before the final
newline is itself a newline. -/
theorem updateEnvFileContent_cex :
    updateEnvFileContent [] ['K'] ['\n'] = ['K', '=', '\n', '\n'] ∧
    (updateEnvFileContent [] ['K'] ['\n']).dropLast.getLast? = some '\n' :=
  ⟨rfl, rfl⟩

/-- C10 (amended): provided the key and the value contain no newline
character, the rewritten content (1) consists of exactly the non-empty
lines of the prior content with (2) the first line starting with
key followed by the equals sign replaced by key=value, or key=value
appended at the end when no such line exists, (3) all other non-empty
lines unchanged and in their original order, and (4) the result ends with
exactly one trailing newline. -/
theorem updateEnvFileContent_spec (content key value : List Char)
    (hk : '\n' ∉ key) (hv : '\n' ∉ value) :
    ∃ outLines,
      splitLines (updateEnvFileContent content key value) = outLines ++ [[]] ∧
      (∀ l ∈ outLines, l ≠ []) ∧
      (((∀ l ∈ (splitLines content).filter (fun l => l ≠ []), ¬ (key ++ ['=']) <+: l) ∧
        outLines = (splitLines content).filter (fun l => l ≠ []) ++ [key ++ '=' :: value]) ∨
       (∃ a l0 b, (splitLines content).filter (fun l => l ≠ []) = a ++ l0 :: b ∧
         (∀ l ∈ a, ¬ (key ++ ['=']) <+: l) ∧ ((key ++ ['=']) <+: l0) ∧
         outLines = a ++ (key ++ '=' :: value) :: b)) ∧
      (updateEnvFileContent content key value).getLast? = some '\n' ∧
      (updateEnvFileContent content key value).dropLast.getLast? ≠ some '\n' := by
  have hkeptmem : ∀ l ∈ (splitLines content).filter (fun l => l ≠ []),
      l ≠ [] ∧ '\n' ∉ l := by
    intro l hl
    rw [List.mem_filter] at hl
    refine ⟨by simpa using hl.2, splitLines_no_newline l hl.1⟩
  have hnlne : (key ++ '=' :: value : List Char) ≠ [] := by simp
  have hnlnn : '\n' ∉ (key ++ '=' :: value : List Char) := by
    intro h
    rcases List.mem_append.mp h with h | h
    · exact hk h
    · rcases List.mem_cons.mp h with h | h
      · simp at h
      · exact hv h
  rcases replaceFirst_spec (key ++ ['=']) (key ++ '=' :: value)
      ((splitLines content).filter (fun l => l ≠ [])) with
    ⟨hall, heq⟩ | ⟨a, l0, b, hsplit, ha, hl0, heq⟩
  · have hfin : updateEnvFileContent content key value =
        joinLines ((splitLines content).filter (fun l => l ≠ []) ++ [key ++ '=' :: value]) ++ ['\n'] := by
      simp only [updateEnvFileContent]
      rw [heq]
      rfl
    refine ⟨(splitLines content).filter (fun l => l ≠ []) ++ [key ++ '=' :: value], ?_, ?_,
      Or.inl ⟨hall, rfl⟩, ?_, ?_⟩
    all_goals try rw [hfin]
    · exact splitLines_joinLines (by simp)
        (by
          intro l hl
          rcases List.mem_append.mp hl with hl | hl
          · exact (hkeptmem l hl).2
          · rw [List.mem_singleton] at hl
            rw [hl]
            exact hnlnn)
    · intro l hl
      rcases List.mem_append.mp hl with hl | hl
      · exact (hkeptmem l hl).1
      · rw [List.mem_singleton] at hl
        rw [hl]
        exact hnlne
    · rw [List.getLast?_append_of_ne_nil _ (by simp)]
      rfl
    · rw [List.dropLast_concat]
      have hlast : ((splitLines content).filter (fun l => l ≠ []) ++
          [key ++ '=' :: value]).getLast? = some (key ++ '=' :: value) := by
        rw [List.getLast?_append_of_ne_nil _ (by simp)]
        rfl
      rw [joinLines_getLast
        (by
          intro l hl
          rcases List.mem_append.mp hl with hl | hl
          · exact (hkeptmem l hl).1
          · rw [List.mem_singleton] at hl
            rw [hl]
            exact hnlne) hlast]
      intro hcon
      exact hnlnn (List.mem_of_mem_getLast? hcon)
  · have hfin : updateEnvFileContent content key value =
        joinLines (a ++ (key ++ '=' :: value) :: b) ++ ['\n'] := by
      simp only [updateEnvFileContent]
      rw [heq]
      rfl
    refine ⟨a ++ (key ++ '=' :: value) :: b, ?_, ?_,
      Or.inr ⟨a, l0, b, hsplit, ha, hl0, rfl⟩, ?_, ?_⟩
    all_goals try rw [hfin]
    · exact splitLines_joinLines (by simp)
        (by
          intro l hl
          rcases List.mem_append.mp hl with hl | hl
          · exact (hkeptmem l (by rw [hsplit]; exact List.mem_append_left _ hl)).2
          · rcases List.mem_cons.mp hl with rfl | hl
            · exact hnlnn
            · exact (hkeptmem l (by
                rw [hsplit]
                exact List.mem_append_right _ (List.mem_cons_of_mem _ hl))).2)
    · intro l hl
      rcases List.mem_append.mp hl with hl | hl
      · exact (hkeptmem l (by rw [hsplit]; exact List.mem_append_left _ hl)).1
      · rcases List.mem_cons.mp hl with rfl | hl
        · exact hnlne
        · exact (hkeptmem l (by
            rw [hsplit]
            exact List.mem_append_right _ (List.mem_cons_of_mem _ hl))).1
    · rw [List.getLast?_append_of_ne_nil _ (by simp)]
      rfl
    · rw [List.dropLast_concat]
      have hlastne : ∀ l ∈ a ++ (key ++ '=' :: value) :: b, l ≠ [] := by
        intro l hl
        rcases List.mem_append.mp hl with hl | hl
        · exact (hkeptmem l (by rw [hsplit]; exact List.mem_append_left _ hl)).1
        · rcases List.mem_cons.mp hl with rfl | hl
          · exact hnlne
          · exact (hkeptmem l (by
              rw [hsplit]
              exact List.mem_append_right _ (List.mem_cons_of_mem _ hl))).1
      obtain ⟨last, hlast⟩ : ∃ last,
          (a ++ (key ++ '=' :: value) :: b).getLast? = some last :=
        Option.isSome_iff_exists.mp (by
          rw [List.getLast?_isSome]
          simp)
      rw [joinLines_getLast hlastne hlast]
      have hlastmem : last ∈ a ++ (key ++ '=' :: value) :: b :=
        List.mem_of_mem_getLast? hlast
      have hlastnn : '\n' ∉ last := by
        rcases List.mem_append.mp hlastmem with hl | hl
        · exact (hkeptmem last (by rw [hsplit]; exact List.mem_append_left _ hl)).2
        · rcases List.mem_cons.mp hl with rfl | hl
          · exact hnlnn
          · exact (hkeptmem last (by
              rw [hsplit]
              exact List.mem_append_right _ (List.mem_cons_of_mem _ hl))).2
      intro hcon
      exact hlastnn (List.mem_of_mem_getLast? hcon)

/-- Witness for C10 (amended): rewriting B in a three-line file with a
blank line. -/
theorem updateEnvFileContent_spec_witness :
    ('\n' ∉ ("B").toList ∧ '\n' ∉ ("9").toList) ∧
    (∃ outLines,
      splitLines (updateEnvFileContent ("A=1\n\nB=2\nC=3").toList ("B").toList ("9").toList) =
        outLines ++ [[]] ∧
      (∀ l ∈ outLines, l ≠ []) ∧
      (((∀ l ∈ (splitLines ("A=1\n\nB=2\nC=3").toList).filter (fun l => l ≠ []),
          ¬ (("B").toList ++ ['=']) <+: l) ∧
        outLines = (splitLines ("A=1\n\nB=2\nC=3").toList).filter (fun l => l ≠ []) ++
          [("B").toList ++ '=' :: ("9").toList]) ∨
       (∃ a l0 b,
         (splitLines ("A=1\n\nB=2\nC=3").toList).filter (fun l => l ≠ []) = a ++ l0 :: b ∧
         (∀ l ∈ a, ¬ (("B").toList ++ ['=']) <+: l) ∧ ((("B").toList ++ ['=']) <+: l0) ∧
         outLines = a ++ (("B").toList ++ '=' :: ("9").toList) :: b)) ∧
      (updateEnvFileContent ("A=1\n\nB=2\nC=3").toList ("B").toList ("9").toList).getLast? =
        some '\n' ∧
      (updateEnvFileContent ("A=1\n\nB=2\nC=3").toList
        ("B").toList ("9").toList).dropLast.getLast? ≠ some '\n') :=
  ⟨⟨by decide, by decide⟩,
   updateEnvFileContent_spec ("A=1\n\nB=2\nC=3").toList ("B").toList ("9").toList
     (by decide) (by decide)⟩

end EnvScript


